import Mathlib

set_option maxHeartbeats 1000000
set_option maxRecDepth 4000

namespace Labyrinth

/-! Shallow embedding of the Labyrinth game authority (src/main.rs).
    Machine integers are modelled by Nat and Int (all values involved stay
    far below any wrap-around boundary).  The external random number
    generator is modelled by an abstract stream of naturals, so a theorem
    quantifying over the stream covers every behaviour of the real
    generator.  The unbounded retry loop in maze generation is modelled
    with explicit fuel and an Option result. -/

/-- Board side length, BOARD_SIZE in the source. -/
def boardSize : Nat := 6

/-- Number of achieved items needed to win, ITEMS_TO_WIN in the source. -/
def itemsToWin : Nat := 5

/-- Integer 2-vector, modelling the IVec2 coordinates used by the game. -/
structure IVec2 where
  x : Int
  y : Int
deriving DecidableEq, Repr, Inhabited

instance : Add IVec2 := ⟨fun a b => ⟨a.x + b.x, a.y + b.y⟩⟩

theorem IVec2.add_def (a b : IVec2) : a + b = ⟨a.x + b.x, a.y + b.y⟩ := rfl

/-- A cell of the board: both coordinates in the range 0..=5. -/
def inGrid (p : IVec2) : Prop := 0 ≤ p.x ∧ p.x < 6 ∧ 0 ≤ p.y ∧ p.y < 6

instance (p : IVec2) : Decidable (inGrid p) := by unfold inGrid; infer_instance

/-- Grid adjacency: Manhattan distance exactly one, as asserted by
    Maze::is_blocked in the source. -/
def adjacent (a b : IVec2) : Prop := (a.x - b.x).natAbs + (a.y - b.y).natAbs = 1

instance (a b : IVec2) : Decidable (adjacent a b) := by unfold adjacent; infer_instance

/-- Read entry y x of a row-major boolean grid (bars[y][x] in the source);
    every call site is in range by construction, out-of-range reads
    default to false. -/
def get2 (g : List (List Bool)) (y x : Nat) : Bool :=
  (g.getD y []).getD x false

/-- Write entry y x of a row-major boolean grid (bars[y][x] = b). -/
def set2 (g : List (List Bool)) (y x : Nat) (b : Bool) : List (List Bool) :=
  g.set y ((g.getD y []).set x b)

/-- The Maze resource: 5 rows of 6 horizontal barriers and 6 rows of 5
    vertical barriers, exactly as in the source. -/
structure Maze where
  horizontal_bars : List (List Bool)
  vertical_bars : List (List Bool)
deriving DecidableEq, Repr

/-- Maze::is_blocked.  The source asserts grid adjacency of the two
    cells; all call sites pass adjacent in-grid cells. -/
def Maze.is_blocked (m : Maze) (f t : IVec2) : Bool :=
  if f.x = t.x then get2 m.horizontal_bars (min f.y t.y).toNat f.x.toNat
  else get2 m.vertical_bars f.y.toNat (min f.x t.x).toNat

/-- Maze::dfs, the recursive flood fill, with explicit fuel.  The Rust
    recursion only ever descends into a cell that is unmarked at call
    time and marks it immediately, so its nesting depth is bounded by the
    36 cells; fuel 36 therefore reproduces it exactly. -/
def Maze.dfs (m : Maze) : Nat → IVec2 → List (List Bool) → List (List Bool)
  | 0, _, reach => reach
  | fuel+1, pos, reach =>
    let reach1 := set2 reach pos.y.toNat pos.x.toNat true
    let reach2 :=
      if pos.x ≠ 0 then
        let np : IVec2 := ⟨pos.x - 1, pos.y⟩
        if get2 reach1 np.y.toNat np.x.toNat = false ∧ m.is_blocked pos np = false
        then m.dfs fuel np reach1 else reach1
      else reach1
    let reach3 :=
      if pos.x ≠ 5 then
        let np : IVec2 := ⟨pos.x + 1, pos.y⟩
        if get2 reach2 np.y.toNat np.x.toNat = false ∧ m.is_blocked pos np = false
        then m.dfs fuel np reach2 else reach2
      else reach2
    let reach4 :=
      if pos.y ≠ 0 then
        let np : IVec2 := ⟨pos.x, pos.y - 1⟩
        if get2 reach3 np.y.toNat np.x.toNat = false ∧ m.is_blocked pos np = false
        then m.dfs fuel np reach3 else reach3
      else reach3
    if pos.y ≠ 5 then
      let np : IVec2 := ⟨pos.x, pos.y + 1⟩
      if get2 reach4 np.y.toNat np.x.toNat = false ∧ m.is_blocked pos np = false
      then m.dfs fuel np reach4 else reach4
    else reach4

/-- Maze::is_valid: flood fill from the origin and check that every cell
    of the 6 by 6 array was reached. -/
def Maze.is_valid (m : Maze) : Bool :=
  (m.dfs 36 ⟨0, 0⟩ (List.replicate 6 (List.replicate 6 false))).all
    (fun row => row.all (fun b => b))

/-- Abstract random number generator: a stream of naturals and a cursor. -/
structure Rng where
  seq : Nat → Nat
  idx : Nat

/-- Draw one value in 0..n-1 and advance the stream (models gen_range). -/
def Rng.next (r : Rng) (n : Nat) : Nat × Rng :=
  (r.seq r.idx % n, ⟨r.seq, r.idx + 1⟩)

/-- Draw one boolean (models gen::<bool>). -/
def Rng.nextBool (r : Rng) : Bool × Rng :=
  let p := r.next 2
  (p.1 == 1, p.2)

/-- The maze with no barriers, the starting point of Maze::generate. -/
def Maze.empty : Maze :=
  ⟨List.replicate 5 (List.replicate 6 false), List.replicate 6 (List.replicate 5 false)⟩

/-- One iteration group of the inner retry loop of Maze::generate: keep
    resampling until a barrier is placed that keeps the maze valid.  The
    Rust loop is unbounded; fuel bounds the number of attempts and none
    is returned when it runs out.  Setting a barrier, testing validity
    and reverting it is modelled as testing the updated maze and keeping
    the original on failure, which is the same state transformation. -/
def placeBarrier (m : Maze) : Nat → Rng → Option (Maze × Rng)
  | 0, _ => none
  | fuel+1, r =>
    let pb := r.nextBool
    if pb.1 then
      let px := pb.2.next 6
      let py := px.2.next 5
      if get2 m.horizontal_bars py.1 px.1 = false then
        let m' : Maze := { m with horizontal_bars := set2 m.horizontal_bars py.1 px.1 true }
        if m'.is_valid then some (m', py.2) else placeBarrier m fuel py.2
      else placeBarrier m fuel py.2
    else
      let px := pb.2.next 5
      let py := px.2.next 6
      if get2 m.vertical_bars py.1 px.1 = false then
        let m' : Maze := { m with vertical_bars := set2 m.vertical_bars py.1 px.1 true }
        if m'.is_valid then some (m', py.2) else placeBarrier m fuel py.2
      else placeBarrier m fuel py.2

/-- The outer loop of Maze::generate: place count barriers in turn. -/
def generateAux (fuel : Nat) : Nat → Maze → Rng → Option (Maze × Rng)
  | 0, m, r => some (m, r)
  | k+1, m, r =>
    match placeBarrier m fuel r with
    | none => none
    | some mr => generateAux fuel k mr.1 mr.2

/-- Maze::generate(num_tiles), starting from the empty maze. -/
def Maze.generate (tiles fuel : Nat) (r : Rng) : Option Maze :=
  (generateAux fuel tiles Maze.empty r).map Prod.fst

/-- Number of set entries of a boolean grid. -/
def countTrue (g : List (List Bool)) : Nat :=
  (g.map (fun row => row.count true)).sum

/-- Total number of barriers set in a maze. -/
def Maze.barrierCount (m : Maze) : Nat :=
  countTrue m.horizontal_bars + countTrue m.vertical_bars

/-- One legal movement edge of the board graph: two adjacent in-grid
    cells whose separating barrier is not set. -/
def Maze.step (m : Maze) (a b : IVec2) : Prop :=
  inGrid a ∧ inGrid b ∧ adjacent a b ∧ m.is_blocked a b = false

/-- Reachability in the board graph induced by a maze. -/
def Maze.Reach (m : Maze) : IVec2 → IVec2 → Prop :=
  Relation.ReflTransGen m.step

/-- Shape predicate for a row-major boolean grid: r rows of c entries. -/
def gridWF (r c : Nat) (g : List (List Bool)) : Prop :=
  g.length = r ∧ ∀ row ∈ g, row.length = c

/-- Shape predicate for a maze, matching the Rust array types. -/
def Maze.WF (m : Maze) : Prop :=
  gridWF 5 6 m.horizontal_bars ∧ gridWF 6 5 m.vertical_bars

theorem getD_set {α : Type} (l : List α) (i j : Nat) (a d : α) :
    (l.set i a).getD j d = if j = i ∧ i < l.length then a else l.getD j d := by
  by_cases h : j = i
  · subst h
    by_cases hl : j < l.length
    · simp [List.getD_eq_getElem?_getD, List.getElem?_set_self hl, hl]
    · simp [List.getD_eq_getElem?_getD, hl, List.set_eq_of_length_le (Nat.le_of_not_lt hl)]
  · simp [List.getD_eq_getElem?_getD, List.getElem?_set_ne (Ne.symm h), h]

theorem get2_set2_true {g : List (List Bool)} {y0 x0 y x : Nat}
    (h : get2 (set2 g y0 x0 true) y x = true) :
    (y = y0 ∧ x = x0) ∨ get2 g y x = true := by
  unfold get2 set2 at h
  rw [getD_set] at h
  by_cases hy : y = y0 ∧ y0 < g.length
  · rw [if_pos hy] at h
    rw [getD_set] at h
    by_cases hx : x = x0 ∧ x0 < (g.getD y0 []).length
    · exact Or.inl ⟨hy.1, hx.1⟩
    · rw [if_neg hx] at h
      exact Or.inr (by unfold get2; rw [hy.1]; exact h)
  · rw [if_neg hy] at h
    exact Or.inr h

theorem gridWF_set2 {r c : Nat} {g : List (List Bool)} (h : gridWF r c g)
    (y x : Nat) (b : Bool) : gridWF r c (set2 g y x b) := by
  obtain ⟨hl, hr⟩ := h
  by_cases hy : y < g.length
  · refine ⟨by simpa [set2] using hl, ?_⟩
    intro row hrow
    rcases List.mem_or_eq_of_mem_set hrow with hm | he
    · exact hr row hm
    · subst he
      rw [List.length_set]
      exact hr _ (by rw [List.getD_eq_getElem _ _ hy]; exact List.getElem_mem hy)
  · unfold set2
    rw [List.set_eq_of_length_le (Nat.le_of_not_lt hy)]
    exact ⟨hl, hr⟩

theorem is_blocked_comm (m : Maze) {a b : IVec2} (hadj : adjacent a b) :
    m.is_blocked a b = m.is_blocked b a := by
  unfold Maze.is_blocked
  by_cases hx : a.x = b.x
  · rw [if_pos hx, if_pos hx.symm, hx, min_comm]
  · have hy : a.y = b.y := by
      unfold adjacent at hadj
      have h1 : (a.x - b.x).natAbs ≠ 0 := fun h0 => hx (by omega)
      omega
    rw [if_neg hx, if_neg (fun h => hx h.symm), hy, min_comm]

theorem step_symm (m : Maze) : Symmetric m.step := by
  intro a b ⟨ha, hb, hadj, hblk⟩
  have hadj' : adjacent b a := by unfold adjacent at hadj ⊢; omega
  exact ⟨hb, ha, hadj', by rw [is_blocked_comm m hadj']; exact hblk⟩

/-- Soundness invariant of the flood fill: every marked entry of the
    array denotes a cell reachable from the start cell. -/
def Sound (m : Maze) (start : IVec2) (reach : List (List Bool)) : Prop :=
  ∀ y x : Nat, y < 6 → x < 6 → get2 reach y x = true →
    m.Reach start ⟨(x : Int), (y : Int)⟩

theorem sound_mark {m : Maze} {start : IVec2} {reach : List (List Bool)}
    (pos : IVec2) (hpos : inGrid pos) (hr : m.Reach start pos)
    (hs : Sound m start reach) :
    Sound m start (set2 reach pos.y.toNat pos.x.toNat true) := by
  intro y x hy hx h
  rcases get2_set2_true h with ⟨hy0, hx0⟩ | hold
  · obtain ⟨h1, h2, h3, h4⟩ := hpos
    have hxe : (x : Int) = pos.x := by rw [hx0]; exact Int.toNat_of_nonneg h1
    have hye : (y : Int) = pos.y := by rw [hy0]; exact Int.toNat_of_nonneg h3
    have : (⟨(x : Int), (y : Int)⟩ : IVec2) = pos := by
      cases pos; simp_all
    rw [this]; exact hr
  · exact hs y x hy hx hold

theorem sound_branch {m : Maze} {start : IVec2} {n : Nat}
    (ih : ∀ pos reach, inGrid pos → m.Reach start pos → Sound m start reach →
      Sound m start (m.dfs n pos reach))
    (pos np : IVec2) (reach : List (List Bool))
    (hpos : inGrid pos) (hnp : inGrid np) (hadj : adjacent pos np)
    (hr : m.Reach start pos) (hs : Sound m start reach) :
    Sound m start
      (if get2 reach np.y.toNat np.x.toNat = false ∧ m.is_blocked pos np = false
       then m.dfs n np reach else reach) := by
  split_ifs with hcond
  · exact ih np reach hnp (hr.tail ⟨hpos, hnp, hadj, hcond.2⟩) hs
  · exact hs

theorem dfs_sound (m : Maze) (start : IVec2) :
    ∀ fuel pos reach, inGrid pos → m.Reach start pos → Sound m start reach →
      Sound m start (m.dfs fuel pos reach) := by
  intro fuel
  induction fuel with
  | zero => intro pos reach _ _ hs; exact hs
  | succ n ih =>
    intro pos reach hpos hr hs
    obtain ⟨hx0, hx6, hy0, hy6⟩ := hpos
    unfold Maze.dfs
    dsimp only
    have h1 : Sound m start (set2 reach pos.y.toNat pos.x.toNat true) :=
      sound_mark pos ⟨hx0, hx6, hy0, hy6⟩ hr hs
    set r1 := set2 reach pos.y.toNat pos.x.toNat true with hd1
    set r2 := (if pos.x ≠ 0 then
        (if get2 r1 (⟨pos.x - 1, pos.y⟩ : IVec2).y.toNat (⟨pos.x - 1, pos.y⟩ : IVec2).x.toNat = false ∧
            m.is_blocked pos ⟨pos.x - 1, pos.y⟩ = false
         then m.dfs n ⟨pos.x - 1, pos.y⟩ r1 else r1) else r1) with hd2
    have h2 : Sound m start r2 := by
      rw [hd2]
      by_cases hc : pos.x ≠ 0
      · rw [if_pos hc]
        exact sound_branch ih pos ⟨pos.x - 1, pos.y⟩ r1 ⟨hx0, hx6, hy0, hy6⟩
          ⟨show (0 : Int) ≤ pos.x - 1 by omega, show pos.x - 1 < 6 by omega, hy0, hy6⟩
          (show (pos.x - (pos.x - 1)).natAbs + (pos.y - pos.y).natAbs = 1 by omega) hr h1
      · rw [if_neg hc]; exact h1
    set r3 := (if pos.x ≠ 5 then
        (if get2 r2 (⟨pos.x + 1, pos.y⟩ : IVec2).y.toNat (⟨pos.x + 1, pos.y⟩ : IVec2).x.toNat = false ∧
            m.is_blocked pos ⟨pos.x + 1, pos.y⟩ = false
         then m.dfs n ⟨pos.x + 1, pos.y⟩ r2 else r2) else r2) with hd3
    have h3 : Sound m start r3 := by
      rw [hd3]
      by_cases hc : pos.x ≠ 5
      · rw [if_pos hc]
        exact sound_branch ih pos ⟨pos.x + 1, pos.y⟩ r2 ⟨hx0, hx6, hy0, hy6⟩
          ⟨show (0 : Int) ≤ pos.x + 1 by omega, show pos.x + 1 < 6 by omega, hy0, hy6⟩
          (show (pos.x - (pos.x + 1)).natAbs + (pos.y - pos.y).natAbs = 1 by omega) hr h2
      · rw [if_neg hc]; exact h2
    set r4 := (if pos.y ≠ 0 then
        (if get2 r3 (⟨pos.x, pos.y - 1⟩ : IVec2).y.toNat (⟨pos.x, pos.y - 1⟩ : IVec2).x.toNat = false ∧
            m.is_blocked pos ⟨pos.x, pos.y - 1⟩ = false
         then m.dfs n ⟨pos.x, pos.y - 1⟩ r3 else r3) else r3) with hd4
    have h4 : Sound m start r4 := by
      rw [hd4]
      by_cases hc : pos.y ≠ 0
      · rw [if_pos hc]
        exact sound_branch ih pos ⟨pos.x, pos.y - 1⟩ r3 ⟨hx0, hx6, hy0, hy6⟩
          ⟨hx0, hx6, show (0 : Int) ≤ pos.y - 1 by omega, show pos.y - 1 < 6 by omega⟩
          (show (pos.x - pos.x).natAbs + (pos.y - (pos.y - 1)).natAbs = 1 by omega) hr h3
      · rw [if_neg hc]; exact h3
    by_cases hc : pos.y ≠ 5
    · rw [if_pos hc]
      exact sound_branch ih pos ⟨pos.x, pos.y + 1⟩ r4 ⟨hx0, hx6, hy0, hy6⟩
        ⟨hx0, hx6, show (0 : Int) ≤ pos.y + 1 by omega, show pos.y + 1 < 6 by omega⟩
        (show (pos.x - pos.x).natAbs + (pos.y - (pos.y + 1)).natAbs = 1 by omega) hr h4
    · rw [if_neg hc]; exact h4

theorem gridWF_dfs (m : Maze) :
    ∀ fuel pos reach, gridWF 6 6 reach → gridWF 6 6 (m.dfs fuel pos reach) := by
  intro fuel
  induction fuel with
  | zero => intro pos reach h; exact h
  | succ n ih =>
    intro pos reach h
    unfold Maze.dfs
    dsimp only
    have h1 := gridWF_set2 h pos.y.toNat pos.x.toNat true
    set r1 := set2 reach pos.y.toNat pos.x.toNat true with hd1
    have h2 : gridWF 6 6 (if pos.x ≠ 0 then
        (if get2 r1 (⟨pos.x - 1, pos.y⟩ : IVec2).y.toNat (⟨pos.x - 1, pos.y⟩ : IVec2).x.toNat = false ∧
            m.is_blocked pos ⟨pos.x - 1, pos.y⟩ = false
         then m.dfs n ⟨pos.x - 1, pos.y⟩ r1 else r1) else r1) := by
      split_ifs <;> first | exact ih _ _ h1 | exact h1
    set r2 := (if pos.x ≠ 0 then
        (if get2 r1 (⟨pos.x - 1, pos.y⟩ : IVec2).y.toNat (⟨pos.x - 1, pos.y⟩ : IVec2).x.toNat = false ∧
            m.is_blocked pos ⟨pos.x - 1, pos.y⟩ = false
         then m.dfs n ⟨pos.x - 1, pos.y⟩ r1 else r1) else r1) with hd2
    have h3 : gridWF 6 6 (if pos.x ≠ 5 then
        (if get2 r2 (⟨pos.x + 1, pos.y⟩ : IVec2).y.toNat (⟨pos.x + 1, pos.y⟩ : IVec2).x.toNat = false ∧
            m.is_blocked pos ⟨pos.x + 1, pos.y⟩ = false
         then m.dfs n ⟨pos.x + 1, pos.y⟩ r2 else r2) else r2) := by
      split_ifs <;> first | exact ih _ _ h2 | exact h2
    set r3 := (if pos.x ≠ 5 then
        (if get2 r2 (⟨pos.x + 1, pos.y⟩ : IVec2).y.toNat (⟨pos.x + 1, pos.y⟩ : IVec2).x.toNat = false ∧
            m.is_blocked pos ⟨pos.x + 1, pos.y⟩ = false
         then m.dfs n ⟨pos.x + 1, pos.y⟩ r2 else r2) else r2) with hd3
    have h4 : gridWF 6 6 (if pos.y ≠ 0 then
        (if get2 r3 (⟨pos.x, pos.y - 1⟩ : IVec2).y.toNat (⟨pos.x, pos.y - 1⟩ : IVec2).x.toNat = false ∧
            m.is_blocked pos ⟨pos.x, pos.y - 1⟩ = false
         then m.dfs n ⟨pos.x, pos.y - 1⟩ r3 else r3) else r3) := by
      split_ifs <;> first | exact ih _ _ h3 | exact h3
    set r4 := (if pos.y ≠ 0 then
        (if get2 r3 (⟨pos.x, pos.y - 1⟩ : IVec2).y.toNat (⟨pos.x, pos.y - 1⟩ : IVec2).x.toNat = false ∧
            m.is_blocked pos ⟨pos.x, pos.y - 1⟩ = false
         then m.dfs n ⟨pos.x, pos.y - 1⟩ r3 else r3) else r3) with hd4
    split_ifs <;> first | exact ih _ _ h4 | exact h4

theorem getD_replicate {α : Type} (n : Nat) (a d : α) (i : Nat) :
    (List.replicate n a).getD i d = if i < n then a else d := by
  induction n generalizing i with
  | zero => simp
  | succ k ih =>
    cases i with
    | zero => simp [List.replicate]
    | succ j => simpa [List.replicate, Nat.succ_lt_succ_iff] using ih j

theorem sound_init (m : Maze) (start : IVec2) :
    Sound m start (List.replicate 6 (List.replicate 6 false)) := by
  intro y x _ _ h
  exfalso
  unfold get2 at h
  rw [getD_replicate] at h
  by_cases hy : y < 6
  · rw [if_pos hy, getD_replicate] at h
    by_cases hx : x < 6
    · rw [if_pos hx] at h; cases h
    · rw [if_neg hx] at h; cases h
  · rw [if_neg hy] at h; simp at h

theorem is_valid_marks (m : Maze) (h : m.is_valid = true) :
    ∀ y x : Nat, y < 6 → x < 6 →
      get2 (m.dfs 36 ⟨0, 0⟩ (List.replicate 6 (List.replicate 6 false))) y x = true := by
  intro y x hy hx
  have hg : gridWF 6 6 (m.dfs 36 ⟨0, 0⟩ (List.replicate 6 (List.replicate 6 false))) :=
    gridWF_dfs m 36 ⟨0, 0⟩ _
      ⟨by simp, fun row hrow => by rw [List.eq_of_mem_replicate hrow]; simp⟩
  unfold Maze.is_valid at h
  rw [List.all_eq_true] at h
  set g := m.dfs 36 ⟨0, 0⟩ (List.replicate 6 (List.replicate 6 false)) with hgdef
  have hyl : y < g.length := by rw [hg.1]; exact hy
  have hrowmem : g.getD y [] ∈ g := by
    rw [List.getD_eq_getElem _ _ hyl]; exact List.getElem_mem hyl
  have hrow := h _ hrowmem
  rw [List.all_eq_true] at hrow
  have hxl : x < (g.getD y []).length := by rw [hg.2 _ hrowmem]; exact hx
  unfold get2
  have : (g.getD y []).getD x false ∈ g.getD y [] := by
    rw [List.getD_eq_getElem _ _ hxl]; exact List.getElem_mem hxl
  exact hrow _ this

theorem is_valid_reach (m : Maze) (h : m.is_valid = true) :
    ∀ q, inGrid q → m.Reach ⟨0, 0⟩ q := by
  intro q hq
  obtain ⟨h1, h2, h3, h4⟩ := hq
  have hmark := is_valid_marks m h q.y.toNat q.x.toNat (by omega) (by omega)
  have hs : Sound m ⟨0, 0⟩ (m.dfs 36 ⟨0, 0⟩ (List.replicate 6 (List.replicate 6 false))) :=
    dfs_sound m ⟨0, 0⟩ 36 ⟨0, 0⟩ _ (by decide)
      Relation.ReflTransGen.refl (sound_init m ⟨0, 0⟩)
  have := hs q.y.toNat q.x.toNat (by omega) (by omega) hmark
  have heq : (⟨(q.x.toNat : Int), (q.y.toNat : Int)⟩ : IVec2) = q := by
    cases q
    simp_all [Int.toNat_of_nonneg]
  rwa [heq] at this

theorem is_valid_connected (m : Maze) (h : m.is_valid = true) :
    ∀ a b, inGrid a → inGrid b → m.Reach a b := by
  intro a b ha hb
  exact Relation.ReflTransGen.trans
    (Relation.ReflTransGen.symmetric (step_symm m) (is_valid_reach m h a ha))
    (is_valid_reach m h b hb)

theorem count_set_true : ∀ (l : List Bool) (i : Nat), i < l.length →
    l.getD i false = false → (l.set i true).count true = l.count true + 1 := by
  intro l i hi hf
  rw [List.count_set _ _ _ _ hi]
  rw [List.getD_eq_getElem _ _ hi] at hf
  rw [hf]
  simp

theorem countTrue_set2 : ∀ (g : List (List Bool)) (y x : Nat), y < g.length →
    x < (g.getD y []).length → get2 g y x = false →
    countTrue (set2 g y x true) = countTrue g + 1 := by
  intro g
  induction g with
  | nil => intro y x h; simp at h
  | cons hd tl ih =>
    intro y x hy hx hf
    cases y with
    | zero =>
      rw [List.getD_cons_zero] at hx
      unfold get2 at hf
      rw [List.getD_cons_zero] at hf
      show countTrue ((hd :: tl).set 0 (((hd :: tl).getD 0 []).set x true)) = countTrue (hd :: tl) + 1
      rw [List.getD_cons_zero]
      show countTrue ((hd.set x true) :: tl) = countTrue (hd :: tl) + 1
      unfold countTrue
      simp only [List.map_cons, List.sum_cons]
      rw [count_set_true hd x hx hf]
      omega
    | succ y =>
      rw [List.getD_cons_succ] at hx
      unfold get2 at hf
      rw [List.getD_cons_succ] at hf
      have hy' : y < tl.length := by simpa using hy
      have hrec := ih y x hy' hx hf
      show countTrue ((hd :: tl).set (y + 1) (((hd :: tl).getD (y + 1) []).set x true)) =
        countTrue (hd :: tl) + 1
      rw [List.getD_cons_succ]
      show countTrue (hd :: tl.set y ((tl.getD y []).set x true)) = countTrue (hd :: tl) + 1
      unfold set2 at hrec
      unfold countTrue at hrec ⊢
      simp only [List.map_cons, List.sum_cons] at hrec ⊢
      omega

theorem placeBarrier_spec : ∀ (fuel : Nat) (m : Maze) (r : Rng) (mr : Maze × Rng),
    m.WF → placeBarrier m fuel r = some mr →
    mr.1.WF ∧ mr.1.barrierCount = m.barrierCount + 1 ∧ mr.1.is_valid = true := by
  intro fuel
  induction fuel with
  | zero => intro m r mr _ h; simp [placeBarrier] at h
  | succ n ih =>
    intro m r mr hwf h
    unfold placeBarrier at h
    dsimp only at h
    by_cases hb : (r.nextBool).1 = true
    · rw [if_pos hb] at h
      set x := ((r.nextBool).2.next 6).1 with hxdef
      set y := (((r.nextBool).2.next 6).2.next 5).1 with hydef
      have hxlt : x < 6 := Nat.mod_lt _ (by omega)
      have hylt : y < 5 := Nat.mod_lt _ (by omega)
      by_cases hfree : get2 m.horizontal_bars y x = false
      · rw [if_pos hfree] at h
        by_cases hval : (Maze.mk (set2 m.horizontal_bars y x true) m.vertical_bars).is_valid = true
        · rw [if_pos hval] at h
          injection h with h
          subst h
          have hyl : y < m.horizontal_bars.length := by rw [hwf.1.1]; exact hylt
          have hrow : m.horizontal_bars.getD y [] ∈ m.horizontal_bars := by
            rw [List.getD_eq_getElem _ _ hyl]
            exact List.getElem_mem hyl
          have hxl : x < (m.horizontal_bars.getD y []).length := by
            rw [hwf.1.2 _ hrow]; exact hxlt
          refine ⟨⟨gridWF_set2 hwf.1 y x true, hwf.2⟩, ?_, hval⟩
          show countTrue (set2 m.horizontal_bars y x true) + countTrue m.vertical_bars =
            countTrue m.horizontal_bars + countTrue m.vertical_bars + 1
          rw [countTrue_set2 m.horizontal_bars y x hyl hxl hfree]
          omega
        · rw [if_neg hval] at h
          exact ih m _ mr hwf h
      · rw [if_neg hfree] at h
        exact ih m _ mr hwf h
    · rw [if_neg hb] at h
      set x := ((r.nextBool).2.next 5).1 with hxdef
      set y := (((r.nextBool).2.next 5).2.next 6).1 with hydef
      have hxlt : x < 5 := Nat.mod_lt _ (by omega)
      have hylt : y < 6 := Nat.mod_lt _ (by omega)
      by_cases hfree : get2 m.vertical_bars y x = false
      · rw [if_pos hfree] at h
        by_cases hval : (Maze.mk m.horizontal_bars (set2 m.vertical_bars y x true)).is_valid = true
        · rw [if_pos hval] at h
          injection h with h
          subst h
          have hyl : y < m.vertical_bars.length := by rw [hwf.2.1]; exact hylt
          have hrow : m.vertical_bars.getD y [] ∈ m.vertical_bars := by
            rw [List.getD_eq_getElem _ _ hyl]
            exact List.getElem_mem hyl
          have hxl : x < (m.vertical_bars.getD y []).length := by
            rw [hwf.2.2 _ hrow]; exact hxlt
          refine ⟨⟨hwf.1, gridWF_set2 hwf.2 y x true⟩, ?_, hval⟩
          show countTrue m.horizontal_bars + countTrue (set2 m.vertical_bars y x true) =
            countTrue m.horizontal_bars + countTrue m.vertical_bars + 1
          rw [countTrue_set2 m.vertical_bars y x hyl hxl hfree]
          omega
        · rw [if_neg hval] at h
          exact ih m _ mr hwf h
      · rw [if_neg hfree] at h
        exact ih m _ mr hwf h

theorem generateAux_spec : ∀ (k fuel : Nat) (m : Maze) (r : Rng) (mr : Maze × Rng),
    m.WF → generateAux fuel k m r = some mr →
    mr.1.WF ∧ mr.1.barrierCount = m.barrierCount + k ∧ (k = 0 → mr.1 = m) ∧
    (1 ≤ k → mr.1.is_valid = true) := by
  intro k
  induction k with
  | zero =>
    intro fuel m r mr hwf h
    unfold generateAux at h
    injection h with h
    subst h
    exact ⟨hwf, rfl, fun _ => rfl, fun hk => absurd hk (by omega)⟩
  | succ n ih =>
    intro fuel m r mr hwf h
    unfold generateAux at h
    cases hp : placeBarrier m fuel r with
    | none => rw [hp] at h; cases h
    | some mr1 =>
      rw [hp] at h
      obtain ⟨hwf1, hc1, hv1⟩ := placeBarrier_spec fuel m r mr1 hwf hp
      obtain ⟨hwf2, hc2, hz2, hv2⟩ := ih fuel mr1.1 mr1.2 mr hwf1 h
      refine ⟨hwf2, by omega, fun hk => absurd hk (by omega), fun _ => ?_⟩
      rcases Nat.eq_zero_or_pos n with h0 | h1
      · rw [hz2 h0]; exact hv1
      · exact hv2 h1

theorem maze_empty_WF : Maze.empty.WF := by
  refine ⟨⟨by simp [Maze.empty], ?_⟩, ⟨by simp [Maze.empty], ?_⟩⟩ <;>
    intro row hrow <;>
    rw [List.eq_of_mem_replicate hrow] <;> simp

/-- C1: every maze returned by Maze::generate with a requested barrier
    count in the configured range 15..=20 has exactly that many barriers
    set, and the adjacency graph induced over the 36 cells is fully
    connected: every cell is reachable from every other cell. -/
theorem claim_C1 (tiles fuel : Nat) (r : Rng) (m : Maze)
    (h15 : 15 ≤ tiles) (h20 : tiles ≤ 20)
    (hgen : Maze.generate tiles fuel r = some m) :
    m.barrierCount = tiles ∧ ∀ a b : IVec2, inGrid a → inGrid b → m.Reach a b := by
  unfold Maze.generate at hgen
  cases hg : generateAux fuel tiles Maze.empty r with
  | none => rw [hg] at hgen; cases hgen
  | some mr =>
    rw [hg] at hgen
    have hgen' : some mr.1 = some m := hgen
    injection hgen' with hgen
    obtain ⟨hwf, hcount, _, hval⟩ := generateAux_spec tiles fuel Maze.empty r mr maze_empty_WF hg
    rw [← hgen]
    constructor
    · rw [hcount]
      have : Maze.empty.barrierCount = 0 := by decide
      omega
    · exact is_valid_connected _ (hval (by omega))

/-- A concrete random stream that drives Maze::generate to place three
    comb-shaped rows of horizontal barriers, 15 in total. -/
def seqC1 : List Nat :=
  [1, 0, 0, 1, 1, 0, 1, 2, 0, 1, 3, 0, 1, 4, 0,
   1, 1, 1, 1, 2, 1, 1, 3, 1, 1, 4, 1, 1, 5, 1,
   1, 0, 2, 1, 1, 2, 1, 2, 2, 1, 3, 2, 1, 4, 2]

def rngC1 : Rng := ⟨fun i => seqC1.getD i 0, 0⟩

/-- The maze that Maze::generate produces from the stream rngC1. -/
def mazeC1 : Maze :=
  ⟨[[true, true, true, true, true, false],
    [false, true, true, true, true, true],
    [true, true, true, true, true, false],
    [false, false, false, false, false, false],
    [false, false, false, false, false, false]],
   List.replicate 6 (List.replicate 5 false)⟩

/-- Witness for C1 at a concrete generation run. -/
theorem claim_C1_witness :
    mazeC1.barrierCount = 15 ∧ mazeC1.Reach ⟨0, 0⟩ ⟨5, 5⟩ := by
  have h := claim_C1 15 1 rngC1 mazeC1 (by decide) (by decide) (by decide)
  exact ⟨h.1, h.2 ⟨0, 0⟩ ⟨5, 5⟩ (by decide) (by decide)⟩

/-- C10: for grid-adjacent cells the blocked-edge relation is symmetric,
    so movement legality does not depend on the direction of travel. -/
theorem claim_C10 (m : Maze) (a b : IVec2) (ha : inGrid a) (hb : inGrid b)
    (hadj : adjacent a b) : m.is_blocked a b = m.is_blocked b a :=
  is_blocked_comm m hadj

/-- Witness for C10 at a concrete maze and edge. -/
theorem claim_C10_witness :
    mazeC1.is_blocked ⟨0, 0⟩ ⟨1, 0⟩ = mazeC1.is_blocked ⟨1, 0⟩ ⟨0, 0⟩ :=
  claim_C10 mazeC1 ⟨0, 0⟩ ⟨1, 0⟩ (by decide) (by decide) (by decide)

/-- The macro-generated Item enum: 24 collectibles. -/
inductive Item
  | bracelet | yinYang | lightning | moon | shootingStar | fire
  | bird | dagger | crown | mushroom | ring | mouse
  | sun | snake | flower | candle | feather | cat
  | spiderWeb | bat | owl | eye | partyHat | magicWand
deriving DecidableEq, Repr, Inhabited

/-- Item::coords, the fixed cell of each item. -/
def Item.coords : Item → IVec2
  | .bracelet => ⟨2, 0⟩
  | .yinYang => ⟨3, 0⟩
  | .lightning => ⟨1, 1⟩
  | .moon => ⟨2, 1⟩
  | .shootingStar => ⟨3, 1⟩
  | .fire => ⟨4, 1⟩
  | .bird => ⟨0, 2⟩
  | .dagger => ⟨1, 2⟩
  | .crown => ⟨2, 2⟩
  | .mushroom => ⟨3, 2⟩
  | .ring => ⟨4, 2⟩
  | .mouse => ⟨5, 2⟩
  | .sun => ⟨0, 3⟩
  | .snake => ⟨1, 3⟩
  | .flower => ⟨2, 3⟩
  | .candle => ⟨3, 3⟩
  | .feather => ⟨4, 3⟩
  | .cat => ⟨5, 3⟩
  | .spiderWeb => ⟨1, 4⟩
  | .bat => ⟨2, 4⟩
  | .owl => ⟨3, 4⟩
  | .eye => ⟨4, 4⟩
  | .partyHat => ⟨2, 5⟩
  | .magicWand => ⟨3, 5⟩

/-- Item::ALL, in declaration order. -/
def Item.all : List Item :=
  [.bracelet, .yinYang, .lightning, .moon, .shootingStar, .fire,
   .bird, .dagger, .crown, .mushroom, .ring, .mouse,
   .sun, .snake, .flower, .candle, .feather, .cat,
   .spiderWeb, .bat, .owl, .eye, .partyHat, .magicWand]

/-- The initial AvailableItems resource: all 24 items. -/
def availableItemsInit : List Item := Item.all

/-- AvailableItems::take_random, with the random index drawn from the
    abstract stream (Vec::remove shifts the tail down, List.eraseIdx). -/
def takeRandom (items : List Item) (r : Rng) : Option Item × List Item × Rng :=
  if items.isEmpty then (none, items, r)
  else
    let pi := r.next items.length
    (some (items.getD pi.1 default), items.eraseIdx pi.1, pi.2)

/-- The replicated Player component. -/
structure Player where
  client_id : Nat
  coords : IVec2
  prev_coords : IVec2
  player_number : Nat
  target_item : Option Item
  achieved_items : List Item
deriving DecidableEq, Repr, Inhabited

/-- The GameState state machine values. -/
inductive GameState
  | waitingPlayers | inGame | win
deriving DecidableEq, Repr, Inhabited

/-- The TurnPhase state machine values. -/
inductive TurnPhase
  | rolling
  | moving (steps_taken : Nat)
deriving DecidableEq, Repr, Inhabited

/-- The MoveRequest client event. -/
inductive MoveRequest
  | up | down | left | right
deriving DecidableEq, Repr, Inhabited

/-- MoveRequest::delta. -/
def MoveRequest.delta : MoveRequest → IVec2
  | .up => ⟨0, 1⟩
  | .down => ⟨0, -1⟩
  | .left => ⟨-1, 0⟩
  | .right => ⟨1, 0⟩

/-- Events broadcast by the authority to all presentation processes. -/
inductive OutEvent
  | gameStateEv (s : GameState)
  | turnPhaseEv (p : TurnPhase)
  | currentTurnEv (t : Nat)
  | animEv (client_id : Nat) (fail : Bool) (move_to : IVec2)
deriving DecidableEq, Repr

/-- The authoritative server state: every resource and component the
    server systems read or write. -/
structure ServerState where
  maze : Maze
  maxPlayers : Nat
  players : List Player
  dice : Nat
  currentTurn : Nat
  turnPhase : TurnPhase
  gameState : GameState
  availableItems : List Item
deriving DecidableEq, Repr

/-- State threaded through one run of server_receive_requests: the server
    state, the random stream, the events broadcast so far, and whether
    the early return on a win has fired. -/
structure Tick where
  s : ServerState
  rng : Rng
  events : List OutEvent
  halted : Bool

/-- LabyrinthPlugin::get_player_start_coords. -/
def get_player_start_coords (player_number : Nat) : IVec2 :=
  ⟨(player_number / 2 * (boardSize - 1) : Nat), (player_number % 2 * (boardSize - 1) : Nat)⟩

/-- The predicate used to locate the acting player: same connection and
    holding the current turn. -/
def isTurnPlayer (cid turn : Nat) (p : Player) : Bool :=
  p.client_id == cid && p.player_number == turn

/-- Body of the roll-request loop of server_receive_requests: if the
    phase is Rolling and the sender is the current player, draw the dice
    from the weighted list and enter Moving with zero steps. -/
def processRoll (t : Tick) (cid : Nat) : Tick :=
  if t.s.turnPhase ≠ TurnPhase.rolling then t
  else if t.s.players.any (isTurnPlayer cid t.s.currentTurn) then
    let pi := t.rng.next 6
    { t with
      s := { t.s with dice := [1, 2, 2, 3, 3, 4].getD pi.1 1, turnPhase := TurnPhase.moving 0 },
      rng := pi.2,
      events := t.events ++ [OutEvent.turnPhaseEv (TurnPhase.moving 0)] }
  else t

/-- Body of the move-request loop of server_receive_requests.  The
    accumulator carries the tick state and the running new_steps_taken;
    diceVal is the dice value read once before the loop.  The halted
    component models the early return after a win: once set, the
    remaining queued requests are not processed. -/
def processMove (diceVal : Nat) (acc : Tick × Nat) (req : Nat × MoveRequest) : Tick × Nat :=
  let t := acc.1
  let newSteps := acc.2
  if t.halted then acc
  else if diceVal ≤ newSteps then acc
  else
    match t.s.players.findIdx? (isTurnPlayer req.1 t.s.currentTurn) with
    | none => acc
    | some i =>
      let p0 := t.s.players.getD i default
      let nextPos := p0.coords + req.2.delta
      if ¬ inGrid nextPos then acc
      else
        let p1 := { p0 with prev_coords := p0.coords }
        if t.s.maze.is_blocked p1.coords nextPos then
          let p2 := { p1 with coords := get_player_start_coords p1.player_number }
          ({ t with
             s := { t.s with players := t.s.players.set i p2 },
             events := t.events ++ [OutEvent.animEv p1.client_id true nextPos] }, diceVal)
        else
          let p2 := { p1 with coords := nextPos }
          let ev := t.events ++ [OutEvent.animEv p1.client_id false nextPos]
          match p2.target_item with
          | some item =>
            if p2.coords = item.coords then
              let p3 := { p2 with achieved_items := p2.achieved_items ++ [item] }
              if itemsToWin ≤ p3.achieved_items.length then
                let p4 := { p3 with target_item := none }
                ({ t with
                   s := { t.s with players := t.s.players.set i p4, gameState := GameState.win },
                   events := ev ++ [OutEvent.gameStateEv GameState.win],
                   halted := true }, newSteps + 1)
              else
                let tr := takeRandom t.s.availableItems t.rng
                let p4 := { p3 with target_item := tr.1 }
                ({ t with
                   s := { t.s with players := t.s.players.set i p4, availableItems := tr.2.1 },
                   rng := tr.2.2,
                   events := ev }, newSteps + 1)
            else
              ({ t with s := { t.s with players := t.s.players.set i p2 }, events := ev },
               newSteps + 1)
          | none =>
            ({ t with s := { t.s with players := t.s.players.set i p2 }, events := ev },
             newSteps + 1)

/-- LabyrinthPlugin::server_receive_requests for one tick: drain all roll
    requests, then all move requests against the resulting phase, then
    apply the end-of-batch phase/turn transition (skipped when the win
    early-return fired). -/
def serverReceiveRequests (s : ServerState) (rng : Rng) (rolls : List Nat)
    (moves : List (Nat × MoveRequest)) : Tick :=
  let t1 := rolls.foldl processRoll ⟨s, rng, [], false⟩
  match t1.s.turnPhase with
  | TurnPhase.rolling => t1
  | TurnPhase.moving steps_taken =>
    let diceVal := t1.s.dice
    let fin := moves.foldl (processMove diceVal) (t1, steps_taken)
    let t2 := fin.1
    let newSteps := fin.2
    if t2.halted then t2
    else if newSteps ≠ steps_taken then
      if diceVal ≤ newSteps then
        let ct := (t2.s.currentTurn + 1) % t2.s.maxPlayers
        { t2 with
          s := { t2.s with currentTurn := ct, turnPhase := TurnPhase.rolling },
          events := t2.events ++
            [OutEvent.currentTurnEv ct, OutEvent.turnPhaseEv TurnPhase.rolling] }
      else
        { t2 with
          s := { t2.s with turnPhase := TurnPhase.moving newSteps },
          events := t2.events ++ [OutEvent.turnPhaseEv (TurnPhase.moving newSteps)] }
    else t2

/-- One tick of the authority: server_receive_requests runs only while
    GameState is InGame (its run condition); otherwise nothing happens. -/
def tick (s : ServerState) (rng : Rng) (rolls : List Nat)
    (moves : List (Nat × MoveRequest)) : Tick :=
  if s.gameState = GameState.inGame then serverReceiveRequests s rng rolls moves
  else ⟨s, rng, [], false⟩

/-- The ClientConnected arm of server_on_events: spawn a player record
    whose index is the number of existing players, at the start corner
    for that index, with a target drawn from the pool; when the player
    count reaches the configured maximum, enter InGame and broadcast. -/
def onClientConnected (s : ServerState) (rng : Rng) (cid : Nat) :
    ServerState × Rng × List OutEvent :=
  let n := s.players.length
  let coords := get_player_start_coords n
  let tr := takeRandom s.availableItems rng
  let p : Player :=
    { client_id := cid, coords := coords, prev_coords := coords, player_number := n,
      target_item := tr.1, achieved_items := [] }
  let s' := { s with players := s.players ++ [p], availableItems := tr.2.1 }
  if n + 1 = s.maxPlayers then
    ({ s' with gameState := GameState.inGame }, tr.2.2, [OutEvent.gameStateEv GameState.inGame])
  else (s', tr.2.2, [])

/-- A whole joining sequence in which every connection is accepted in a
    tick of its own: fold onClientConnected over the connection
    identifiers, concatenating the broadcasts. -/
def runConnects (s : ServerState) (rng : Rng) : List Nat → ServerState × Rng × List OutEvent
  | [] => (s, rng, [])
  | cid :: rest =>
    let r1 := onClientConnected s rng cid
    let r2 := runConnects r1.1 r1.2.1 rest
    (r2.1, r2.2.1, r1.2.2 ++ r2.2.2)

/-- Helper for one run of server_on_events over a whole batch of
    ClientConnected events.  Spawn commands issued by a Bevy system are
    deferred until after the system runs, so the player-count query
    returns the same pre-run count n for every event of the batch; the
    item-pool resource, in contrast, is borrowed mutably and updates
    immediately. -/
def serverOnEventsAux (n : Nat) :
    ServerState → Rng → List Nat → ServerState × Rng × List OutEvent
  | s, rng, [] => (s, rng, [])
  | s, rng, cid :: rest =>
    let tr := takeRandom s.availableItems rng
    let p : Player := ⟨cid, get_player_start_coords n, get_player_start_coords n, n,
      tr.1, []⟩
    let s' := { s with
      players := s.players ++ [p],
      availableItems := tr.2.1,
      gameState := if n + 1 = s.maxPlayers then GameState.inGame else s.gameState }
    let ev : List OutEvent :=
      if n + 1 = s.maxPlayers then [OutEvent.gameStateEv GameState.inGame] else []
    let r2 := serverOnEventsAux n s' tr.2.2 rest
    (r2.1, r2.2.1, ev ++ r2.2.2)

/-- One run of LabyrinthPlugin::server_on_events over the batch of
    ClientConnected events delivered this tick: every event of the batch
    observes the same player count. -/
def serverOnEvents (s : ServerState) (rng : Rng) (cids : List Nat) :
    ServerState × Rng × List OutEvent :=
  serverOnEventsAux s.players.length s rng cids

/-- C4: every protocol violation is a complete no-op — a roll request in
    a phase other than Rolling, a roll request whose sender is not the
    current turn holder, a move request whose sender is not the current
    turn holder, a move request once steps_taken has reached the dice
    value, a move request whose target cell is out of the grid, and a
    move request arriving while the phase is Rolling: none of them
    changes any state or emits any event. -/
theorem claim_C4 :
    (∀ t cid, t.s.turnPhase ≠ TurnPhase.rolling → processRoll t cid = t) ∧
    (∀ t cid, t.s.players.any (isTurnPlayer cid t.s.currentTurn) = false →
      processRoll t cid = t) ∧
    (∀ dv (t : Tick) ns cid mv,
      t.s.players.findIdx? (isTurnPlayer cid t.s.currentTurn) = none →
      processMove dv (t, ns) (cid, mv) = (t, ns)) ∧
    (∀ dv (t : Tick) ns cid mv, dv ≤ ns → processMove dv (t, ns) (cid, mv) = (t, ns)) ∧
    (∀ dv (t : Tick) ns cid mv i, t.s.players.findIdx? (isTurnPlayer cid t.s.currentTurn) = some i →
      ¬ inGrid ((t.s.players.getD i default).coords + mv.delta) →
      processMove dv (t, ns) (cid, mv) = (t, ns)) ∧
    (∀ s rng moves, s.gameState = GameState.inGame → s.turnPhase = TurnPhase.rolling →
      tick s rng [] moves = ⟨s, rng, [], false⟩) := by
  refine ⟨?_, ?_, ?_, ?_, ?_, ?_⟩
  · intro t cid h
    unfold processRoll
    rw [if_pos h]
  · intro t cid h
    unfold processRoll
    split_ifs with h1 h2
    · rfl
    · rw [h] at h2; cases h2
    · rfl
  · intro dv t ns cid mv h
    unfold processMove
    dsimp only
    by_cases h1 : t.halted
    · rw [if_pos h1]
    · rw [if_neg h1]
      by_cases h2 : dv ≤ ns
      · rw [if_pos h2]
      · rw [if_neg h2, h]
  · intro dv t ns cid mv h
    unfold processMove
    dsimp only
    by_cases h1 : t.halted
    · rw [if_pos h1]
    · rw [if_neg h1, if_pos h]
  · intro dv t ns cid mv i hfind hout
    unfold processMove
    dsimp only
    by_cases h1 : t.halted
    · rw [if_pos h1]
    · rw [if_neg h1]
      by_cases h2 : dv ≤ ns
      · rw [if_pos h2]
      · rw [if_neg h2, hfind]
        dsimp only
        rw [if_pos hout]
  · intro s rng moves hgs hph
    unfold tick
    rw [if_pos hgs]
    unfold serverReceiveRequests
    simp only [List.foldl]
    rw [hph]

/-- Witness for C4: a move request sent by a non-holder is dropped. -/
theorem claim_C4_witness :
    processMove 2 (⟨⟨mazeC1, 2, [⟨7, ⟨0, 0⟩, ⟨0, 0⟩, 0, none, []⟩], 2, 1,
      TurnPhase.moving 0, GameState.inGame, []⟩, ⟨fun _ => 0, 0⟩, [], false⟩, 0)
      (7, MoveRequest.up) =
    (⟨⟨mazeC1, 2, [⟨7, ⟨0, 0⟩, ⟨0, 0⟩, 0, none, []⟩], 2, 1,
      TurnPhase.moving 0, GameState.inGame, []⟩, ⟨fun _ => 0, 0⟩, [], false⟩, 0) :=
  claim_C4.2.2.1 2 _ 0 7 MoveRequest.up (by decide)

/-- A constant random stream for concrete scenarios. -/
def rng0 : Rng := ⟨fun _ => 0, 0⟩

/-- A one-player in-game state in the Rolling phase on an empty maze. -/
def sC5 : ServerState :=
  ⟨Maze.empty, 1, [⟨9, ⟨0, 0⟩, ⟨0, 0⟩, 0, none, []⟩], 0, 0,
   TurnPhase.rolling, GameState.inGame, []⟩

/-- C5: a roll request by the current turn holder while the phase is
    Rolling draws the dice from the weighted list [1,2,2,3,3,4] (hence a
    value in [1,2,3,4]) and moves the phase to Moving with zero steps,
    broadcasting the phase change; and roll requests are drained before
    move requests, so a move request sent in the same tick as the roll
    is resolved against the resulting Moving phase, as the concrete
    one-tick roll-then-move run shows. -/
theorem claim_C5 :
    (∀ (t : Tick) cid, t.s.turnPhase = TurnPhase.rolling →
      t.s.players.any (isTurnPlayer cid t.s.currentTurn) = true →
      (processRoll t cid).s.dice ∈ [1, 2, 2, 3, 3, 4] ∧
      (processRoll t cid).s.dice ∈ [1, 2, 3, 4] ∧
      (processRoll t cid).s.turnPhase = TurnPhase.moving 0 ∧
      (processRoll t cid).events = t.events ++ [OutEvent.turnPhaseEv (TurnPhase.moving 0)]) ∧
    ((tick sC5 rng0 [9] [(9, MoveRequest.up)]).s.players =
        [⟨9, ⟨0, 1⟩, ⟨0, 0⟩, 0, none, []⟩] ∧
      (tick sC5 rng0 [9] [(9, MoveRequest.up)]).s.dice = 1 ∧
      (tick sC5 rng0 [9] [(9, MoveRequest.up)]).s.turnPhase = TurnPhase.rolling ∧
      (tick sC5 rng0 [9] [(9, MoveRequest.up)]).events =
        [OutEvent.turnPhaseEv (TurnPhase.moving 0), OutEvent.animEv 9 false ⟨0, 1⟩,
         OutEvent.currentTurnEv 0, OutEvent.turnPhaseEv TurnPhase.rolling]) := by
  constructor
  · intro t cid hph hany
    unfold processRoll
    rw [if_neg (fun hc => hc hph), if_pos hany]
    dsimp only
    have hk : (t.rng.next 6).1 < 6 := Nat.mod_lt _ (by omega)
    have hmem : ∀ k : Nat, k < 6 →
        [1, 2, 2, 3, 3, 4].getD k 1 ∈ [1, 2, 2, 3, 3, 4] ∧
        [1, 2, 2, 3, 3, 4].getD k 1 ∈ [1, 2, 3, 4] := by
      intro k hkk
      interval_cases k <;> exact ⟨by decide, by decide⟩
    obtain ⟨h1, h2⟩ := hmem _ hk
    exact ⟨h1, h2, rfl, rfl⟩
  · exact ⟨by decide, by decide, by decide, by decide⟩

/-- Witness for C5 at a concrete roll. -/
theorem claim_C5_witness :
    (processRoll ⟨sC5, rng0, [], false⟩ 9).s.dice ∈ [1, 2, 2, 3, 3, 4] ∧
    (processRoll ⟨sC5, rng0, [], false⟩ 9).s.turnPhase = TurnPhase.moving 0 :=
  have h := claim_C5.1 ⟨sC5, rng0, [], false⟩ 9 (by decide) (by decide)
  ⟨h.1, h.2.2.1⟩

theorem processMove_blocked (dv : Nat) (t : Tick) (ns cid : Nat) (mv : MoveRequest) (i : Nat)
    (hhalt : t.halted = false) (hns : ns < dv)
    (hfind : t.s.players.findIdx? (isTurnPlayer cid t.s.currentTurn) = some i)
    (hin : inGrid ((t.s.players.getD i default).coords + mv.delta))
    (hblk : t.s.maze.is_blocked (t.s.players.getD i default).coords
      ((t.s.players.getD i default).coords + mv.delta) = true) :
    processMove dv (t, ns) (cid, mv) =
      (⟨{ t.s with
            players :=
              t.s.players.set i
                ({ t.s.players.getD i default with
                    prev_coords := (t.s.players.getD i default).coords,
                    coords :=
                      get_player_start_coords (t.s.players.getD i default).player_number }) },
          t.rng,
          t.events ++
            [OutEvent.animEv (t.s.players.getD i default).client_id true
              ((t.s.players.getD i default).coords + mv.delta)],
          t.halted⟩, dv) := by
  unfold processMove
  dsimp only
  rw [if_neg (by simp [hhalt]), if_neg (show ¬ dv ≤ ns by omega), hfind]
  dsimp only
  rw [if_neg (fun hc => hc hin), if_pos hblk]

/-- C2: a move by the current turn holder during Moving with steps below
    the dice value, into an in-grid cell separated by a barrier, resets
    the mover to the start cell of their index, forces the turn to end
    this same tick (phase back to Rolling, turn passed to the next
    player), leaves dice, game state and item pool untouched, and
    broadcasts the failed-move animation event carrying the target cell
    and the fail flag, whatever the prior number of steps taken. -/
theorem claim_C2 (s : ServerState) (rng : Rng) (cid : Nat) (mv : MoveRequest) (i n : Nat)
    (hgs : s.gameState = GameState.inGame)
    (hph : s.turnPhase = TurnPhase.moving n)
    (hn : n < s.dice)
    (hfind : s.players.findIdx? (isTurnPlayer cid s.currentTurn) = some i)
    (hin : inGrid ((s.players.getD i default).coords + mv.delta))
    (hblk : s.maze.is_blocked (s.players.getD i default).coords
      ((s.players.getD i default).coords + mv.delta) = true) :
    tick s rng [] [(cid, mv)] =
      ⟨{ s with
          players :=
            s.players.set i
              ({ s.players.getD i default with
                  prev_coords := (s.players.getD i default).coords,
                  coords :=
                    get_player_start_coords (s.players.getD i default).player_number }),
          currentTurn := (s.currentTurn + 1) % s.maxPlayers,
          turnPhase := TurnPhase.rolling },
        rng,
        [OutEvent.animEv (s.players.getD i default).client_id true
           ((s.players.getD i default).coords + mv.delta),
         OutEvent.currentTurnEv ((s.currentTurn + 1) % s.maxPlayers),
         OutEvent.turnPhaseEv TurnPhase.rolling],
        false⟩ := by
  unfold tick
  rw [if_pos hgs]
  unfold serverReceiveRequests
  simp only [List.foldl]
  rw [hph]
  dsimp only
  rw [processMove_blocked s.dice ⟨s, rng, [], false⟩ n cid mv i rfl hn hfind hin hblk]
  dsimp only
  rw [if_neg (by simp : ¬ (false = true)), if_pos (show s.dice ≠ n by omega),
    if_pos (Nat.le_refl s.dice)]
  simp

/-- A two-player in-game state in the Moving phase, the mover at the
    origin under the barrier mazeC1 places above it. -/
def sC2 : ServerState :=
  ⟨mazeC1, 2, [⟨7, ⟨0, 0⟩, ⟨0, 0⟩, 0, none, []⟩], 2, 0,
   TurnPhase.moving 0, GameState.inGame, []⟩

/-- Witness for C2 at a concrete blocked move. -/
theorem claim_C2_witness :
    tick sC2 rng0 [] [(7, MoveRequest.up)] =
      ⟨⟨mazeC1, 2, [⟨7, ⟨0, 0⟩, ⟨0, 0⟩, 0, none, []⟩], 2, 1,
         TurnPhase.rolling, GameState.inGame, []⟩, rng0,
       [OutEvent.animEv 7 true ⟨0, 1⟩, OutEvent.currentTurnEv 1,
        OutEvent.turnPhaseEv TurnPhase.rolling], false⟩ :=
  claim_C2 sC2 rng0 7 MoveRequest.up 0 0 (by decide) (by decide) (by decide)
    (by decide) (by decide) (by decide)

theorem processMove_halted (dv : Nat) (acc : Tick × Nat) (req : Nat × MoveRequest)
    (h : acc.1.halted = true) : processMove dv acc req = acc := by
  unfold processMove
  dsimp only
  rw [if_pos h]

theorem foldl_processMove_halted (dv : Nat) :
    ∀ (moves : List (Nat × MoveRequest)) (t : Tick) (ns : Nat), t.halted = true →
      moves.foldl (processMove dv) (t, ns) = (t, ns) := by
  intro moves
  induction moves with
  | nil => intro t ns _; rfl
  | cons hd tl ih =>
    intro t ns h
    rw [List.foldl_cons, processMove_halted dv (t, ns) hd h]
    exact ih t ns h

/-- C3: a successful move that brings a player's achieved count to the
    win threshold sets GameState to Win, broadcasts it, and halts the
    batch; once halted, no further move request of the tick is
    processed; and from any state whose GameState is Win the request
    system no longer runs, so no subsequent request changes any
    simulation state. -/
theorem claim_C3 :
    (∀ dv (t : Tick) ns cid mv i it, t.halted = false → ns < dv →
      t.s.players.findIdx? (isTurnPlayer cid t.s.currentTurn) = some i →
      inGrid ((t.s.players.getD i default).coords + mv.delta) →
      t.s.maze.is_blocked (t.s.players.getD i default).coords
        ((t.s.players.getD i default).coords + mv.delta) = false →
      (t.s.players.getD i default).target_item = some it →
      it.coords = (t.s.players.getD i default).coords + mv.delta →
      itemsToWin ≤ (t.s.players.getD i default).achieved_items.length + 1 →
      (processMove dv (t, ns) (cid, mv)).1.s.gameState = GameState.win ∧
      (processMove dv (t, ns) (cid, mv)).1.halted = true ∧
      (processMove dv (t, ns) (cid, mv)).1.events =
        t.events ++
          [OutEvent.animEv (t.s.players.getD i default).client_id false
            ((t.s.players.getD i default).coords + mv.delta),
           OutEvent.gameStateEv GameState.win]) ∧
    (∀ dv (acc : Tick × Nat) req, acc.1.halted = true → processMove dv acc req = acc) ∧
    (∀ dv (moves : List (Nat × MoveRequest)) (t : Tick) ns, t.halted = true →
      moves.foldl (processMove dv) (t, ns) = (t, ns)) ∧
    (∀ s rng rolls moves, s.gameState = GameState.win →
      tick s rng rolls moves = ⟨s, rng, [], false⟩) := by
  refine ⟨?_, processMove_halted, foldl_processMove_halted, ?_⟩
  · intro dv t ns cid mv i it hhalt hns hfind hin hblk htgt hcoord hlen
    unfold processMove
    dsimp only
    rw [if_neg (by simp [hhalt]), if_neg (show ¬ dv ≤ ns by omega), hfind]
    dsimp only
    rw [if_neg (fun hc => hc hin), if_neg (by rw [hblk]; simp), htgt]
    dsimp only
    rw [if_pos hcoord.symm, if_pos (by simpa using hlen)]
    refine ⟨rfl, rfl, by simp⟩
  · intro s rng rolls moves h
    unfold tick
    rw [if_neg (by rw [h]; exact fun hc => GameState.noConfusion hc)]

/-- A state where the acting player is one step below their fifth item. -/
def sC3 : ServerState :=
  ⟨Maze.empty, 2,
   [⟨7, ⟨2, 1⟩, ⟨2, 1⟩, 0, some Item.bracelet,
     [Item.yinYang, Item.lightning, Item.moon, Item.shootingStar]⟩],
   2, 0, TurnPhase.moving 0, GameState.inGame, []⟩

/-- A state whose game is already won. -/
def sC3win : ServerState :=
  ⟨Maze.empty, 2, [⟨7, ⟨0, 0⟩, ⟨0, 0⟩, 0, none, []⟩], 2, 0,
   TurnPhase.moving 0, GameState.win, []⟩

/-- Witness for C3: a concrete winning pickup halts with Win broadcast,
    and a tick starting from a won state is a complete no-op. -/
theorem claim_C3_witness :
    ((processMove 2 (⟨sC3, rng0, [], false⟩, 0) (7, MoveRequest.down)).1.s.gameState =
        GameState.win ∧
      (processMove 2 (⟨sC3, rng0, [], false⟩, 0) (7, MoveRequest.down)).1.halted = true ∧
      (processMove 2 (⟨sC3, rng0, [], false⟩, 0) (7, MoveRequest.down)).1.events =
        [] ++ [OutEvent.animEv 7 false ⟨2, 0⟩, OutEvent.gameStateEv GameState.win]) ∧
    tick sC3win rng0 [7] [(7, MoveRequest.up)] = ⟨sC3win, rng0, [], false⟩ :=
  ⟨claim_C3.1 2 ⟨sC3, rng0, [], false⟩ 0 7 MoveRequest.down 0 Item.bracelet
      (by decide) (by decide) (by decide) (by decide) (by decide) (by decide)
      (by decide) (by decide),
   claim_C3.2.2.2 sC3win rng0 [7] [(7, MoveRequest.up)] (by decide)⟩

theorem findIdx?_aux_lt {α : Type} (p : α → Bool) :
    ∀ (l : List α) (j i : Nat), List.findIdx? p l j = some i → i < j + l.length := by
  intro l
  induction l with
  | nil => intro j i h; rw [List.findIdx?_nil] at h; cases h
  | cons hd tl ih =>
    intro j i h
    rw [List.findIdx?_cons] at h
    by_cases hp : p hd = true
    · rw [if_pos hp] at h
      injection h with h
      subst h
      simp [List.length_cons]
    · rw [if_neg hp] at h
      have := ih (j + 1) i h
      simp only [List.length_cons]
      omega

theorem findIdx?_lt_length {α : Type} (p : α → Bool) (l : List α) (i : Nat)
    (h : List.findIdx? p l = some i) : i < l.length := by
  have := findIdx?_aux_lt p l 0 i h
  omega

/-- C8: a successful move onto the cell of the player's target item
    appends that item to the end of the achieved list; when the achieved
    count is still below the win threshold a new target is drawn from
    the pool, which yields no target when the pool is empty; and no
    pickup happens on a blocked move or when the player holds no
    target. -/
theorem claim_C8 :
    (∀ dv (t : Tick) ns cid mv i it, t.halted = false → ns < dv →
      t.s.players.findIdx? (isTurnPlayer cid t.s.currentTurn) = some i →
      inGrid ((t.s.players.getD i default).coords + mv.delta) →
      t.s.maze.is_blocked (t.s.players.getD i default).coords
        ((t.s.players.getD i default).coords + mv.delta) = false →
      (t.s.players.getD i default).target_item = some it →
      it.coords = (t.s.players.getD i default).coords + mv.delta →
      ((processMove dv (t, ns) (cid, mv)).1.s.players.getD i default).achieved_items =
        (t.s.players.getD i default).achieved_items ++ [it] ∧
      ((t.s.players.getD i default).achieved_items.length + 1 < itemsToWin →
        ((processMove dv (t, ns) (cid, mv)).1.s.players.getD i default).target_item =
          (takeRandom t.s.availableItems t.rng).1 ∧
        (processMove dv (t, ns) (cid, mv)).1.s.availableItems =
          (takeRandom t.s.availableItems t.rng).2.1) ∧
      (t.s.availableItems = [] →
        (t.s.players.getD i default).achieved_items.length + 1 < itemsToWin →
        ((processMove dv (t, ns) (cid, mv)).1.s.players.getD i default).target_item =
          none)) ∧
    (∀ dv (t : Tick) ns cid mv i, t.halted = false → ns < dv →
      t.s.players.findIdx? (isTurnPlayer cid t.s.currentTurn) = some i →
      inGrid ((t.s.players.getD i default).coords + mv.delta) →
      t.s.maze.is_blocked (t.s.players.getD i default).coords
        ((t.s.players.getD i default).coords + mv.delta) = true →
      ((processMove dv (t, ns) (cid, mv)).1.s.players.getD i default).achieved_items =
        (t.s.players.getD i default).achieved_items ∧
      ((processMove dv (t, ns) (cid, mv)).1.s.players.getD i default).target_item =
        (t.s.players.getD i default).target_item ∧
      (processMove dv (t, ns) (cid, mv)).1.s.availableItems = t.s.availableItems) ∧
    (∀ dv (t : Tick) ns cid mv i, t.halted = false → ns < dv →
      t.s.players.findIdx? (isTurnPlayer cid t.s.currentTurn) = some i →
      inGrid ((t.s.players.getD i default).coords + mv.delta) →
      t.s.maze.is_blocked (t.s.players.getD i default).coords
        ((t.s.players.getD i default).coords + mv.delta) = false →
      (t.s.players.getD i default).target_item = none →
      ((processMove dv (t, ns) (cid, mv)).1.s.players.getD i default).achieved_items =
        (t.s.players.getD i default).achieved_items ∧
      ((processMove dv (t, ns) (cid, mv)).1.s.players.getD i default).target_item = none ∧
      (processMove dv (t, ns) (cid, mv)).1.s.availableItems = t.s.availableItems) := by
  refine ⟨?_, ?_, ?_⟩
  · intro dv t ns cid mv i it hhalt hns hfind hin hblk htgt hcoord
    have hlt : i < t.s.players.length := findIdx?_lt_length _ _ _ hfind
    unfold processMove
    dsimp only
    rw [if_neg (by simp [hhalt]), if_neg (show ¬ dv ≤ ns by omega), hfind]
    dsimp only
    rw [if_neg (fun hc => hc hin), if_neg (by rw [hblk]; simp), htgt]
    dsimp only
    rw [if_pos hcoord.symm]
    by_cases hw : itemsToWin ≤ ((t.s.players.getD i default).achieved_items ++ [it]).length
    · rw [if_pos hw]
      dsimp only
      rw [getD_set, if_pos ⟨rfl, hlt⟩]
      rw [List.length_append, List.length_singleton] at hw
      exact ⟨rfl, fun hc => absurd hc (by omega), fun _ hc => absurd hc (by omega)⟩
    · rw [if_neg hw]
      dsimp only
      rw [getD_set, if_pos ⟨rfl, hlt⟩]
      refine ⟨rfl, fun _ => ⟨rfl, rfl⟩, fun hemp _ => ?_⟩
      rw [hemp]
      simp [takeRandom]
  · intro dv t ns cid mv i hhalt hns hfind hin hblk
    have hlt : i < t.s.players.length := findIdx?_lt_length _ _ _ hfind
    rw [processMove_blocked dv t ns cid mv i hhalt hns hfind hin hblk]
    dsimp only
    rw [getD_set, if_pos ⟨rfl, hlt⟩]
    exact ⟨rfl, rfl, rfl⟩
  · intro dv t ns cid mv i hhalt hns hfind hin hblk htgt
    have hlt : i < t.s.players.length := findIdx?_lt_length _ _ _ hfind
    unfold processMove
    dsimp only
    rw [if_neg (by simp [hhalt]), if_neg (show ¬ dv ≤ ns by omega), hfind]
    dsimp only
    rw [if_neg (fun hc => hc hin), if_neg (by rw [hblk]; simp), htgt]
    dsimp only
    rw [getD_set, if_pos ⟨rfl, hlt⟩]
    exact ⟨rfl, htgt ▸ rfl, rfl⟩

/-- A state where the acting player reaches their target with room to
    spare: one achieved item, pool holding one item. -/
def sC8 : ServerState :=
  ⟨Maze.empty, 2, [⟨7, ⟨2, 1⟩, ⟨2, 1⟩, 0, some Item.bracelet, [Item.yinYang]⟩],
   2, 0, TurnPhase.moving 0, GameState.inGame, [Item.moon]⟩

/-- Witness for C8 at a concrete pickup. -/
theorem claim_C8_witness :
    ((processMove 2 (⟨sC8, rng0, [], false⟩, 0) (7, MoveRequest.down)).1.s.players.getD 0
        default).achieved_items = [Item.yinYang] ++ [Item.bracelet] ∧
    ((processMove 2 (⟨sC8, rng0, [], false⟩, 0) (7, MoveRequest.down)).1.s.players.getD 0
        default).target_item = (takeRandom [Item.moon] rng0).1 ∧
    (processMove 2 (⟨sC8, rng0, [], false⟩, 0) (7, MoveRequest.down)).1.s.availableItems =
      (takeRandom [Item.moon] rng0).2.1 :=
  have h := claim_C8.1 2 ⟨sC8, rng0, [], false⟩ 0 7 MoveRequest.down 0 Item.bracelet
    (by decide) (by decide) (by decide) (by decide) (by decide) (by decide) (by decide)
  have h2 := h.2.1 (by decide)
  ⟨h.1, h2.1, h2.2⟩

theorem processRoll_pool (t : Tick) (cid : Nat) :
    (processRoll t cid).s.availableItems = t.s.availableItems := by
  unfold processRoll
  split_ifs <;> rfl

theorem foldl_processRoll_pool : ∀ (rolls : List Nat) (t : Tick),
    (rolls.foldl processRoll t).s.availableItems = t.s.availableItems := by
  intro rolls
  induction rolls with
  | nil => intro t; rfl
  | cons hd tl ih => intro t; rw [List.foldl_cons, ih, processRoll_pool]

theorem processMove_pool (dv : Nat) (acc : Tick × Nat) (req : Nat × MoveRequest) :
    List.Sublist (processMove dv acc req).1.s.availableItems acc.1.s.availableItems := by
  unfold processMove takeRandom
  dsimp only
  repeat' split
  all_goals
    first
      | exact List.Sublist.refl _
      | exact List.eraseIdx_sublist _ _

theorem foldl_processMove_pool (dv : Nat) :
    ∀ (moves : List (Nat × MoveRequest)) (acc : Tick × Nat),
      List.Sublist (moves.foldl (processMove dv) acc).1.s.availableItems
        acc.1.s.availableItems := by
  intro moves
  induction moves with
  | nil => intro acc; exact List.Sublist.refl _
  | cons hd tl ih =>
    intro acc
    rw [List.foldl_cons]
    exact List.Sublist.trans (ih _) (processMove_pool dv acc hd)

theorem serverReceive_pool (s : ServerState) (rng : Rng) (rolls : List Nat)
    (moves : List (Nat × MoveRequest)) :
    List.Sublist (serverReceiveRequests s rng rolls moves).s.availableItems
      s.availableItems := by
  unfold serverReceiveRequests
  dsimp only
  have h1 : (rolls.foldl processRoll ⟨s, rng, [], false⟩).s.availableItems =
      s.availableItems := foldl_processRoll_pool rolls _
  cases hph : (rolls.foldl processRoll ⟨s, rng, [], false⟩).s.turnPhase with
  | rolling =>
    dsimp only
    rw [h1]
  | moving steps =>
    dsimp only
    have h2 : List.Sublist
        (moves.foldl (processMove (rolls.foldl processRoll ⟨s, rng, [], false⟩).s.dice)
          (rolls.foldl processRoll ⟨s, rng, [], false⟩, steps)).1.s.availableItems
        s.availableItems := by
      rw [← h1]
      exact foldl_processMove_pool _ moves _
    split_ifs <;> exact h2

/-- C9: take_random returns no item exactly when the unassigned set is
    empty, and otherwise removes exactly one item from the set and
    returns it; the set starts as all 24 items, and no authority
    operation ever grows it (no item is ever returned to the pool). -/
theorem claim_C9 :
    (∀ (items : List Item) (r : Rng), (takeRandom items r).1 = none ↔ items = []) ∧
    (∀ (items : List Item) (r : Rng) it, (takeRandom items r).1 = some it →
      it ∈ items ∧ (takeRandom items r).2.1.length + 1 = items.length ∧
      List.Sublist (takeRandom items r).2.1 items) ∧
    availableItemsInit.length = 24 ∧
    (∀ s rng rolls moves,
      List.Sublist (tick s rng rolls moves).s.availableItems s.availableItems) ∧
    (∀ s rng cid,
      List.Sublist (onClientConnected s rng cid).1.availableItems s.availableItems) := by
  refine ⟨?_, ?_, by decide, ?_, ?_⟩
  · intro items r
    unfold takeRandom
    by_cases he : items.isEmpty
    · rw [if_pos he]
      rw [List.isEmpty_iff] at he
      simp [he]
    · rw [if_neg he]
      rw [List.isEmpty_iff] at he
      simp [he]
  · intro items r it h
    unfold takeRandom at h ⊢
    by_cases he : items.isEmpty
    · rw [if_pos he] at h
      cases h
    · rw [if_neg he] at h ⊢
      rw [List.isEmpty_iff] at he
      have hlen : 0 < items.length := List.length_pos.mpr he
      have hk : (r.next items.length).1 < items.length := Nat.mod_lt _ hlen
      dsimp only at h ⊢
      injection h with h
      refine ⟨?_, ?_, List.eraseIdx_sublist _ _⟩
      · rw [← h, List.getD_eq_getElem _ _ hk]
        exact List.getElem_mem hk
      · rw [List.length_eraseIdx, if_pos hk]
        omega
  · intro s rng rolls moves
    unfold tick
    split_ifs
    · exact serverReceive_pool s rng rolls moves
    · exact List.Sublist.refl _
  · intro s rng cid
    unfold onClientConnected takeRandom
    dsimp only
    repeat' split
    all_goals
      first
        | exact List.Sublist.refl _
        | exact List.eraseIdx_sublist _ _

/-- Witness for C9: taking from a one-item pool returns that item and
    empties the pool. -/
theorem claim_C9_witness :
    Item.moon ∈ [Item.moon] ∧
    (takeRandom [Item.moon] rng0).2.1.length + 1 = [Item.moon].length ∧
    List.Sublist (takeRandom [Item.moon] rng0).2.1 [Item.moon] :=
  claim_C9.2.1 [Item.moon] rng0 Item.moon (by decide)

theorem onClientConnected_players (s : ServerState) (rng : Rng) (cid : Nat) :
    (onClientConnected s rng cid).1.players =
      s.players ++ [⟨cid, get_player_start_coords s.players.length,
        get_player_start_coords s.players.length, s.players.length,
        (takeRandom s.availableItems rng).1, []⟩] := by
  unfold onClientConnected
  dsimp only
  split_ifs <;> rfl

theorem onClientConnected_maxPlayers (s : ServerState) (rng : Rng) (cid : Nat) :
    (onClientConnected s rng cid).1.maxPlayers = s.maxPlayers := by
  unfold onClientConnected
  dsimp only
  split_ifs <;> rfl

theorem onClientConnected_gameState (s : ServerState) (rng : Rng) (cid : Nat) :
    (onClientConnected s rng cid).1.gameState =
      if s.players.length + 1 = s.maxPlayers then GameState.inGame else s.gameState := by
  unfold onClientConnected
  dsimp only
  split_ifs <;> rfl

theorem onClientConnected_events (s : ServerState) (rng : Rng) (cid : Nat) :
    (onClientConnected s rng cid).2.2 =
      if s.players.length + 1 = s.maxPlayers then [OutEvent.gameStateEv GameState.inGame]
      else [] := by
  unfold onClientConnected
  dsimp only
  split_ifs <;> rfl

theorem runConnects_spec (M : Nat) :
    ∀ (cids : List Nat) (s : ServerState) (rng : Rng),
      s.maxPlayers = M → s.players.length < M →
      s.players.length + cids.length ≤ M →
      s.gameState = GameState.waitingPlayers →
      (runConnects s rng cids).1.gameState =
        (if s.players.length + cids.length = M then GameState.inGame
         else GameState.waitingPlayers) ∧
      (runConnects s rng cids).1.players.length = s.players.length + cids.length ∧
      List.count (OutEvent.gameStateEv GameState.inGame) (runConnects s rng cids).2.2 =
        (if s.players.length + cids.length = M then 1 else 0) := by
  intro cids
  induction cids with
  | nil =>
    intro s rng hM hlt hle hgs
    unfold runConnects
    dsimp only
    refine ⟨?_, by simp, ?_⟩
    · rw [if_neg (by simp; omega)]
      exact hgs
    · rw [if_neg (by simp; omega)]
      simp
  | cons cid rest ih =>
    intro s rng hM hlt hle hgs
    rw [List.length_cons] at hle
    unfold runConnects
    dsimp only
    set r1 := onClientConnected s rng cid with hr1
    have hp : r1.1.players.length = s.players.length + 1 := by
      rw [hr1, onClientConnected_players]
      simp
    have hmax : r1.1.maxPlayers = M := by
      rw [hr1, onClientConnected_maxPlayers, hM]
    by_cases hfull : s.players.length + 1 = M
    · have hrest : rest = [] := by
        cases rest with
        | nil => rfl
        | cons a b =>
          exfalso
          rw [List.length_cons] at hle
          omega
      subst hrest
      have hgs1 : r1.1.gameState = GameState.inGame := by
        rw [hr1, onClientConnected_gameState, hM, if_pos hfull]
      have hev1 : r1.2.2 = [OutEvent.gameStateEv GameState.inGame] := by
        rw [hr1, onClientConnected_events, hM, if_pos hfull]
      unfold runConnects
      dsimp only
      refine ⟨?_, ?_, ?_⟩
      · rw [if_pos (by simp; omega)]
        exact hgs1
      · rw [hp]
        simp
      · rw [hev1, if_pos (by simp; omega)]
        simp
    · have hgs1 : r1.1.gameState = GameState.waitingPlayers := by
        rw [hr1, onClientConnected_gameState, hM, if_neg hfull]
        exact hgs
      have hlt1 : r1.1.players.length < M := by omega
      have hle1 : r1.1.players.length + rest.length ≤ M := by omega
      obtain ⟨ha, hb, hc⟩ := ih r1.1 r1.2.1 hmax hlt1 hle1 hgs1
      have hev1 : r1.2.2 = [] := by
        rw [hr1, onClientConnected_events, hM, if_neg hfull]
      refine ⟨?_, ?_, ?_⟩
      · rw [ha, hp]
        by_cases hcond : s.players.length + (cid :: rest).length = M
        · rw [if_pos hcond, if_pos (by simp at hcond ⊢; omega)]
        · rw [if_neg hcond, if_neg (by simp at hcond ⊢; omega)]
      · rw [hb, hp]
        simp
        omega
      · rw [hev1, List.nil_append, hc, hp]
        by_cases hcond : s.players.length + (cid :: rest).length = M
        · rw [if_pos hcond, if_pos (by simp at hcond ⊢; omega)]
        · rw [if_neg hcond, if_neg (by simp at hcond ⊢; omega)]

/-- The server state right after LabyrinthPlugin::init on the server
    side: no players, default dice, turn and phase, the full item pool,
    and the configured maximum player count. -/
def initServer (mz : Maze) (M : Nat) : ServerState :=
  ⟨mz, M, [], 0, 0, TurnPhase.rolling, GameState.waitingPlayers, availableItemsInit⟩

/-- C6 (amended): each accepted connection, when it is the only one of
    its tick, creates a player record whose index is the number of
    previously accepted connections, placed at the start corner for
    that index; and over a session whose connections arrive in distinct
    ticks the WaitingPlayers to InGame transition fires exactly once,
    at the connection that makes the player count equal to the
    configured maximum.  The restriction to one connection per tick is
    necessary: spawn commands are deferred, so a batch of connections
    accepted in the same tick all observe the same stale player count
    (see the counterexample below). -/
theorem claim_C6 :
    (∀ (s : ServerState) (rng : Rng) (cid : Nat),
      (onClientConnected s rng cid).1.players =
        s.players ++ [⟨cid, get_player_start_coords s.players.length,
          get_player_start_coords s.players.length, s.players.length,
          (takeRandom s.availableItems rng).1, []⟩]) ∧
    (∀ (s : ServerState) (rng : Rng) (cid : Nat),
      (onClientConnected s rng cid).1.gameState =
        (if s.players.length + 1 = s.maxPlayers then GameState.inGame else s.gameState) ∧
      (onClientConnected s rng cid).2.2 =
        (if s.players.length + 1 = s.maxPlayers then [OutEvent.gameStateEv GameState.inGame]
         else [])) ∧
    (∀ (mz : Maze) (M : Nat) (cids : List Nat) (rng : Rng), 1 ≤ M → cids.length ≤ M →
      ((runConnects (initServer mz M) rng cids).1.gameState = GameState.inGame ↔
        cids.length = M) ∧
      List.count (OutEvent.gameStateEv GameState.inGame)
          (runConnects (initServer mz M) rng cids).2.2 =
        (if cids.length = M then 1 else 0)) := by
  refine ⟨onClientConnected_players, ?_, ?_⟩
  · intro s rng cid
    exact ⟨onClientConnected_gameState s rng cid, onClientConnected_events s rng cid⟩
  · intro mz M cids rng hM hle
    obtain ⟨ha, _, hc⟩ := runConnects_spec M cids (initServer mz M) rng rfl
      (by unfold initServer; dsimp only; simpa using hM)
      (by unfold initServer; dsimp only; simpa using hle) rfl
    constructor
    · rw [ha]
      by_cases hcond : cids.length = M
      · rw [if_pos (by simp [initServer]; omega)]
        simp [hcond]
      · rw [if_neg (by simp [initServer]; omega)]
        constructor
        · intro hcontra
          cases hcontra
        · intro hcontra
          exact absurd hcontra hcond
    · rw [hc]
      by_cases hcond : cids.length = M
      · rw [if_pos (by simp [initServer]; omega), if_pos hcond]
      · rw [if_neg (by simp [initServer]; omega), if_neg hcond]

/-- Witness for C6: a two-player session enters InGame exactly at the
    second connection. -/
theorem claim_C6_witness :
    ((runConnects (initServer Maze.empty 2) rng0 [5, 8]).1.gameState = GameState.inGame ↔
      ([5, 8] : List Nat).length = 2) ∧
    List.count (OutEvent.gameStateEv GameState.inGame)
        (runConnects (initServer Maze.empty 2) rng0 [5, 8]).2.2 =
      (if ([5, 8] : List Nat).length = 2 then 1 else 0) :=
  claim_C6.2.2 Maze.empty 2 [5, 8] rng0 (by decide) (by decide)

/-- Counterexample to C6 as stated: when the two connections of a
    two-player session are accepted in the same tick, both player
    records receive index 0 (the second should have index 1, the number
    of previously accepted connections) and the WaitingPlayers to
    InGame transition does not fire in the tick in which the number of
    accepted connections reaches the configured maximum. -/
theorem claim_C6_counterexample :
    ((serverOnEvents (initServer Maze.empty 2) rng0 [5, 8]).1.players.getD 1
      default).player_number = 0 ∧
    (serverOnEvents (initServer Maze.empty 2) rng0 [5, 8]).1.gameState =
      GameState.waitingPlayers := by
  exact ⟨by decide, by decide⟩

/-- The items a player record accounts for: its current target, if any,
    followed by its achieved items. -/
def itemsOf (p : Player) : List Item :=
  p.target_item.toList ++ p.achieved_items

/-- All items the authority is tracking: the unassigned pool followed by
    every player's target and achieved items. -/
def allItems (s : ServerState) : List Item :=
  s.availableItems ++ s.players.flatMap itemsOf

/-- The state invariant maintained by the authority: at most four
    configured players, no more player records than that, every record
    inside the grid with a bounded achieved list and an index below the
    player count, a target only while below the win threshold, and no
    item accounted for twice anywhere (pool, targets, achieved lists). -/
def stateInv (s : ServerState) : Prop :=
  s.maxPlayers ≤ 4 ∧
  s.players.length ≤ s.maxPlayers ∧
  (∀ p ∈ s.players, inGrid p.coords ∧ p.achieved_items.length ≤ itemsToWin ∧
    p.player_number < s.maxPlayers ∧
    (p.target_item.isSome = true → p.achieved_items.length < itemsToWin)) ∧
  (allItems s).Nodup

instance (s : ServerState) : Decidable (stateInv s) := by
  unfold stateInv
  infer_instance

theorem start_coords_inGrid (n : Nat) (h : n < 4) :
    inGrid (get_player_start_coords n) := by
  interval_cases n <;> decide

theorem list_decomp {α : Type} (d : α) :
    ∀ (l : List α) (i : Nat), i < l.length →
      l = l.take i ++ l.getD i d :: l.drop (i + 1) := by
  intro l
  induction l with
  | nil => intro i h; simp at h
  | cons hd tl ih =>
    intro i h
    cases i with
    | zero => simp
    | succ j =>
      rw [List.length_cons] at h
      rw [List.take_succ_cons, List.getD_cons_succ, List.drop_succ_cons, List.cons_append]
      exact congrArg (List.cons hd) (ih j (by omega))

theorem flatMap_decomp {α β : Type} (f : α → List β) (d : α) (l : List α) (i : Nat)
    (h : i < l.length) :
    l.flatMap f =
      (l.take i).flatMap f ++ (f (l.getD i d) ++ (l.drop (i + 1)).flatMap f) := by
  conv_lhs => rw [list_decomp d l i h]
  rw [List.flatMap_append, List.flatMap_cons]

theorem flatMap_set {α β : Type} (f : α → List β) (l : List α) (i : Nat) (p' : α)
    (h : i < l.length) :
    (l.set i p').flatMap f =
      (l.take i).flatMap f ++ (f p' ++ (l.drop (i + 1)).flatMap f) := by
  rw [List.set_eq_take_cons_drop p' h, List.flatMap_append, List.flatMap_cons]

theorem perm_getD_eraseIdx {α : Type} (d : α) (l : List α) (i : Nat) (h : i < l.length) :
    l.Perm (l.getD i d :: l.eraseIdx i) := by
  conv_lhs => rw [list_decomp d l i h]
  rw [List.eraseIdx_eq_take_drop_succ]
  exact List.perm_middle

theorem flatMap_nodup_of_mem {α : Type} (f : α → List Item) :
    ∀ (l : List α), (l.flatMap f).Nodup → ∀ p ∈ l, (f p).Nodup := by
  intro l
  induction l with
  | nil => intro _ p hp; cases hp
  | cons hd tl ih =>
    intro h p hp
    rw [List.flatMap_cons, List.nodup_append] at h
    rw [List.mem_cons] at hp
    rcases hp with hp | hp
    · subst hp; exact h.1
    · exact ih h.2.1 p hp

theorem flatMap_disjoint_of_ne {α : Type} (f : α → List Item) :
    ∀ (l : List α), (l.flatMap f).Nodup → ∀ p ∈ l, ∀ q ∈ l, p ≠ q →
      List.Disjoint (f p) (f q) := by
  intro l
  induction l with
  | nil => intro _ p hp; cases hp
  | cons hd tl ih =>
    intro h p hp q hq hne
    rw [List.flatMap_cons, List.nodup_append] at h
    rw [List.mem_cons] at hp hq
    rcases hp with hp | hp <;> rcases hq with hq | hq
    · exact absurd (hp.trans hq.symm) hne
    · subst hp
      intro a hap haq
      exact h.2.2 hap (List.mem_flatMap.mpr ⟨q, hq, haq⟩)
    · subst hq
      intro a hap haq
      exact h.2.2 haq (List.mem_flatMap.mpr ⟨p, hp, hap⟩)
    · exact ih h.2.1 p hp q hq hne

theorem processRoll_inv (t : Tick) (cid : Nat) (h : stateInv t.s) :
    stateInv (processRoll t cid).s := by
  unfold processRoll
  split_ifs <;> exact h

theorem foldl_processRoll_inv : ∀ (rolls : List Nat) (t : Tick), stateInv t.s →
    stateInv (rolls.foldl processRoll t).s := by
  intro rolls
  induction rolls with
  | nil => intro t h; exact h
  | cons hd tl ih =>
    intro t h
    rw [List.foldl_cons]
    exact ih _ (processRoll_inv t hd h)

theorem processMove_inv (dv : Nat) (acc : Tick × Nat) (req : Nat × MoveRequest)
    (h : stateInv acc.1.s) : stateInv (processMove dv acc req).1.s := by
  unfold processMove
  dsimp only
  by_cases h1 : acc.1.halted
  · rw [if_pos h1]; exact h
  · rw [if_neg h1]
    by_cases h2 : dv ≤ acc.2
    · rw [if_pos h2]; exact h
    · rw [if_neg h2]
      cases hfind : acc.1.s.players.findIdx? (isTurnPlayer req.1 acc.1.s.currentTurn) with
      | none => exact h
      | some i =>
        dsimp only
        have hi : i < acc.1.s.players.length := findIdx?_lt_length _ _ _ hfind
        obtain ⟨hmax, hlen, hplayers, hnodup⟩ := h
        have hp0mem : acc.1.s.players.getD i default ∈ acc.1.s.players := by
          rw [List.getD_eq_getElem _ _ hi]
          exact List.getElem_mem hi
        obtain ⟨hg0, ha0, hn0, ht0⟩ := hplayers _ hp0mem
        have hnodup' : (acc.1.s.availableItems ++
            ((acc.1.s.players.take i).flatMap itemsOf ++
              (itemsOf (acc.1.s.players.getD i default) ++
                (acc.1.s.players.drop (i + 1)).flatMap itemsOf))).Nodup := by
          unfold allItems at hnodup
          rwa [flatMap_decomp itemsOf default acc.1.s.players i hi] at hnodup
        by_cases h3 : ¬ inGrid ((acc.1.s.players.getD i default).coords + req.2.delta)
        · rw [if_pos h3]
          exact ⟨hmax, hlen, hplayers, hnodup⟩
        · rw [if_neg h3]
          rw [not_not] at h3
          by_cases h4 : acc.1.s.maze.is_blocked (acc.1.s.players.getD i default).coords
              ((acc.1.s.players.getD i default).coords + req.2.delta) = true
          · rw [if_pos h4]
            dsimp only
            refine ⟨hmax, by rw [List.length_set]; exact hlen, ?_, ?_⟩
            · intro q hq
              rcases List.mem_or_eq_of_mem_set hq with hq | hq
              · exact hplayers q hq
              · subst hq
                exact ⟨start_coords_inGrid _ (by omega), ha0, hn0, ht0⟩
            · unfold allItems
              dsimp only
              rw [flatMap_set itemsOf _ i _ hi]
              exact hnodup'
          · rw [if_neg h4]
            cases htgt : (acc.1.s.players.getD i default).target_item with
            | none =>
              dsimp only
              have hB0 : itemsOf (acc.1.s.players.getD i default) =
                  (acc.1.s.players.getD i default).achieved_items := by
                unfold itemsOf
                rw [htgt]
                rfl
              refine ⟨hmax, by rw [List.length_set]; exact hlen, ?_, ?_⟩
              · intro q hq
                rcases List.mem_or_eq_of_mem_set hq with hq | hq
                · exact hplayers q hq
                · subst hq
                  exact ⟨h3, ha0, hn0, by intro hcontra; simp at hcontra⟩
              · unfold allItems
                dsimp only
                rw [flatMap_set itemsOf _ i _ hi]
                rw [hB0] at hnodup'
                exact hnodup'
            | some item =>
              dsimp only
              have hB : itemsOf (acc.1.s.players.getD i default) =
                  item :: (acc.1.s.players.getD i default).achieved_items := by
                unfold itemsOf
                rw [htgt]
                rfl
              have hsome : (acc.1.s.players.getD i default).target_item.isSome = true := by
                rw [htgt]; rfl
              have hach : (acc.1.s.players.getD i default).achieved_items.length <
                  itemsToWin := ht0 hsome
              by_cases h5 : (acc.1.s.players.getD i default).coords + req.2.delta = item.coords
              · rw [if_pos h5]
                by_cases h6 : itemsToWin ≤
                    ((acc.1.s.players.getD i default).achieved_items ++ [item]).length
                · rw [if_pos h6]
                  dsimp only
                  refine ⟨hmax, by rw [List.length_set]; exact hlen, ?_, ?_⟩
                  · intro q hq
                    rcases List.mem_or_eq_of_mem_set hq with hq | hq
                    · exact hplayers q hq
                    · subst hq
                      refine ⟨h3, ?_, hn0, ?_⟩
                      · show ((acc.1.s.players.getD i default).achieved_items ++
                          [item]).length ≤ itemsToWin
                        rw [List.length_append, List.length_singleton]
                        omega
                      · intro hcontra
                        simp at hcontra
                  · unfold allItems
                    dsimp only
                    rw [flatMap_set itemsOf _ i _ hi]
                    rw [hB] at hnodup'
                    have hBB' : List.Perm
                        (itemsOf ({ acc.1.s.players.getD i default with
                          prev_coords := (acc.1.s.players.getD i default).coords,
                          coords := (acc.1.s.players.getD i default).coords + req.2.delta,
                          achieved_items :=
                            (acc.1.s.players.getD i default).achieved_items ++ [item],
                          target_item := none } : Player))
                        (item :: (acc.1.s.players.getD i default).achieved_items) :=
                      List.perm_append_singleton item _
                    exact ((List.Perm.append_left _ (List.Perm.append_left _
                      (List.Perm.append_right _ hBB'))).symm.nodup hnodup' : _)
                · rw [if_neg h6]
                  unfold takeRandom
                  dsimp only
                  by_cases h7 : acc.1.s.availableItems.isEmpty
                  · rw [if_pos h7]
                    dsimp only
                    refine ⟨hmax, by rw [List.length_set]; exact hlen, ?_, ?_⟩
                    · intro q hq
                      rcases List.mem_or_eq_of_mem_set hq with hq | hq
                      · exact hplayers q hq
                      · subst hq
                        refine ⟨h3, ?_, hn0, ?_⟩
                        · show ((acc.1.s.players.getD i default).achieved_items ++
                            [item]).length ≤ itemsToWin
                          rw [List.length_append, List.length_singleton]
                          omega
                        · intro hcontra
                          simp at hcontra
                    · unfold allItems
                      dsimp only
                      rw [flatMap_set itemsOf _ i _ hi]
                      rw [hB] at hnodup'
                      have hBB' : List.Perm
                          (itemsOf ({ acc.1.s.players.getD i default with
                            prev_coords := (acc.1.s.players.getD i default).coords,
                            coords := (acc.1.s.players.getD i default).coords + req.2.delta,
                            achieved_items :=
                              (acc.1.s.players.getD i default).achieved_items ++ [item],
                            target_item := none } : Player))
                          (item :: (acc.1.s.players.getD i default).achieved_items) :=
                        List.perm_append_singleton item _
                      exact ((List.Perm.append_left _ (List.Perm.append_left _
                        (List.Perm.append_right _ hBB'))).symm.nodup hnodup' : _)
                  · rw [if_neg h7]
                    dsimp only
                    have hpos : 0 < acc.1.s.availableItems.length := by
                      rw [List.isEmpty_iff] at h7
                      exact List.length_pos.mpr h7
                    have hk : (acc.1.rng.next acc.1.s.availableItems.length).1 <
                        acc.1.s.availableItems.length := Nat.mod_lt _ hpos
                    refine ⟨hmax, by rw [List.length_set]; exact hlen, ?_, ?_⟩
                    · intro q hq
                      rcases List.mem_or_eq_of_mem_set hq with hq | hq
                      · exact hplayers q hq
                      · subst hq
                        refine ⟨h3, ?_, hn0, ?_⟩
                        · show ((acc.1.s.players.getD i default).achieved_items ++
                            [item]).length ≤ itemsToWin
                          rw [List.length_append, List.length_singleton]
                          omega
                        · intro _
                          show ((acc.1.s.players.getD i default).achieved_items ++
                            [item]).length < itemsToWin
                          rw [List.length_append, List.length_singleton] at h6 ⊢
                          omega
                    · unfold allItems
                      dsimp only
                      rw [flatMap_set itemsOf _ i _ hi]
                      rw [hB] at hnodup'
                      set P := acc.1.s.availableItems with hP
                      set k := (acc.1.rng.next acc.1.s.availableItems.length).1 with hkdef
                      set g := P.getD k default with hg
                      set A := (acc.1.s.players.take i).flatMap itemsOf with hA
                      set C := (acc.1.s.players.drop (i + 1)).flatMap itemsOf with hC
                      set ach := (acc.1.s.players.getD i default).achieved_items with hach2
                      have hPperm : List.Perm P (g :: P.eraseIdx k) :=
                        perm_getD_eraseIdx default P k hk
                      have step1 : List.Perm (A ++ (g :: ((ach ++ [item]) ++ C)))
                          (g :: (A ++ ((ach ++ [item]) ++ C))) := List.perm_middle
                      have step2 : List.Perm
                          (P.eraseIdx k ++ (A ++ (g :: ((ach ++ [item]) ++ C))))
                          (P.eraseIdx k ++ (g :: (A ++ ((ach ++ [item]) ++ C)))) :=
                        List.Perm.append_left _ step1
                      have step3 : List.Perm
                          (P.eraseIdx k ++ (g :: (A ++ ((ach ++ [item]) ++ C))))
                          (g :: (P.eraseIdx k ++ (A ++ ((ach ++ [item]) ++ C)))) :=
                        List.perm_middle
                      have step4 : List.Perm
                          (g :: (P.eraseIdx k ++ (A ++ ((ach ++ [item]) ++ C))))
                          (g :: (P.eraseIdx k ++ (A ++ ((item :: ach) ++ C)))) :=
                        List.Perm.cons g (List.Perm.append_left _ (List.Perm.append_left _
                          (List.Perm.append_right _ (List.perm_append_singleton item ach))))
                      have step5 : List.Perm
                          (g :: (P.eraseIdx k ++ (A ++ ((item :: ach) ++ C))))
                          (P ++ (A ++ ((item :: ach) ++ C))) :=
                        (List.Perm.append_right _ hPperm).symm
                      have htotal : List.Perm
                          (P.eraseIdx k ++ (A ++ (g :: ((ach ++ [item]) ++ C))))
                          (P ++ (A ++ ((item :: ach) ++ C))) :=
                        step2.trans (step3.trans (step4.trans step5))
                      have hold : (P ++ (A ++ ((item :: ach) ++ C))).Nodup := by
                        have : List.Perm (P ++ (A ++ (item :: ach ++ C)))
                            (P ++ (A ++ ((item :: ach) ++ C))) := by
                          rw [List.cons_append]
                        exact this.nodup hnodup'
                      exact (htotal.symm.nodup hold : _)
              · rw [if_neg h5]
                dsimp only
                refine ⟨hmax, by rw [List.length_set]; exact hlen, ?_, ?_⟩
                · intro q hq
                  rcases List.mem_or_eq_of_mem_set hq with hq | hq
                  · exact hplayers q hq
                  · subst hq
                    exact ⟨h3, ha0, hn0, fun _ => hach⟩
                · unfold allItems
                  dsimp only
                  rw [flatMap_set itemsOf _ i _ hi]
                  rw [hB] at hnodup'
                  exact hnodup'

theorem foldl_processMove_inv (dv : Nat) :
    ∀ (moves : List (Nat × MoveRequest)) (acc : Tick × Nat), stateInv acc.1.s →
      stateInv ((moves.foldl (processMove dv) acc)).1.s := by
  intro moves
  induction moves with
  | nil => intro acc h; exact h
  | cons hd tl ih =>
    intro acc h
    rw [List.foldl_cons]
    exact ih _ (processMove_inv dv acc hd h)

theorem tick_inv (s : ServerState) (rng : Rng) (rolls : List Nat)
    (moves : List (Nat × MoveRequest)) (h : stateInv s) :
    stateInv (tick s rng rolls moves).s := by
  unfold tick
  split_ifs with hgs
  · unfold serverReceiveRequests
    dsimp only
    have h1 : stateInv (rolls.foldl processRoll ⟨s, rng, [], false⟩).s :=
      foldl_processRoll_inv rolls _ h
    cases hph : (rolls.foldl processRoll ⟨s, rng, [], false⟩).s.turnPhase with
    | rolling => exact h1
    | moving steps =>
      dsimp only
      have h2 : stateInv
          (moves.foldl (processMove (rolls.foldl processRoll ⟨s, rng, [], false⟩).s.dice)
            (rolls.foldl processRoll ⟨s, rng, [], false⟩, steps)).1.s :=
        foldl_processMove_inv _ moves _ h1
      split_ifs <;> exact h2
  · exact h

theorem onClientConnected_inv (s : ServerState) (rng : Rng) (cid : Nat)
    (h : stateInv s) (hroom : s.players.length < s.maxPlayers) :
    stateInv (onClientConnected s rng cid).1 := by
  obtain ⟨hmax, hlen, hplayers, hnodup⟩ := h
  have hmemlem : ∀ q ∈ s.players ++ [(⟨cid, get_player_start_coords s.players.length,
      get_player_start_coords s.players.length, s.players.length,
      (takeRandom s.availableItems rng).1, []⟩ : Player)],
      inGrid q.coords ∧ q.achieved_items.length ≤ itemsToWin ∧
      q.player_number < s.maxPlayers ∧
      (q.target_item.isSome = true → q.achieved_items.length < itemsToWin) := by
    intro q hq
    rw [List.mem_append] at hq
    rcases hq with hq | hq
    · exact hplayers q hq
    · rw [List.mem_singleton] at hq
      subst hq
      exact ⟨start_coords_inGrid _ (by omega), by simp [itemsToWin], hroom,
        fun _ => by simp [itemsToWin]⟩
  have hlen2 : (s.players ++ [(⟨cid, get_player_start_coords s.players.length,
      get_player_start_coords s.players.length, s.players.length,
      (takeRandom s.availableItems rng).1, []⟩ : Player)]).length ≤ s.maxPlayers := by
    rw [List.length_append, List.length_singleton]
    omega
  have hnodup2 : ((takeRandom s.availableItems rng).2.1 ++
      ((s.players ++ [(⟨cid, get_player_start_coords s.players.length,
        get_player_start_coords s.players.length, s.players.length,
        (takeRandom s.availableItems rng).1, []⟩ : Player)]).flatMap itemsOf)).Nodup := by
    unfold allItems at hnodup
    rw [List.flatMap_append, List.flatMap_cons, List.flatMap_nil]
    unfold takeRandom
    by_cases hemp : s.availableItems.isEmpty
    · rw [if_pos hemp]
      dsimp only
      have hEq : itemsOf (⟨cid, get_player_start_coords s.players.length,
          get_player_start_coords s.players.length, s.players.length, none, []⟩ : Player) =
          [] := rfl
      rw [hEq]
      simp only [List.nil_append, List.append_nil]
      exact hnodup
    · rw [if_neg hemp]
      dsimp only
      have hpos : 0 < s.availableItems.length := by
        rw [List.isEmpty_iff] at hemp
        exact List.length_pos.mpr hemp
      have hk : (rng.next s.availableItems.length).1 < s.availableItems.length :=
        Nat.mod_lt _ hpos
      have hPperm : List.Perm s.availableItems
          (s.availableItems.getD (rng.next s.availableItems.length).1 default ::
            s.availableItems.eraseIdx (rng.next s.availableItems.length).1) :=
        perm_getD_eraseIdx default _ _ hk
      set g := s.availableItems.getD (rng.next s.availableItems.length).1 default with hg
      set P' := s.availableItems.eraseIdx (rng.next s.availableItems.length).1 with hP'
      set F := s.players.flatMap itemsOf with hF
      have step1 : List.Perm (P' ++ (F ++ (g :: [] ++ [])))
          (P' ++ (F ++ [g])) := by
        exact List.Perm.refl _
      have step2 : List.Perm (P' ++ (F ++ [g])) (P' ++ (g :: F)) :=
        List.Perm.append_left _ (List.perm_append_singleton g F)
      have step3 : List.Perm (P' ++ (g :: F)) (g :: (P' ++ F)) := List.perm_middle
      have step4 : List.Perm (g :: (P' ++ F)) (s.availableItems ++ F) :=
        (List.Perm.append_right _ hPperm).symm
      have htotal := step1.trans (step2.trans (step3.trans step4))
      exact (htotal.symm.nodup hnodup : _)
  unfold onClientConnected
  dsimp only
  split_ifs with hfull
  · exact ⟨hmax, hlen2, hmemlem, hnodup2⟩
  · exact ⟨hmax, hlen2, hmemlem, hnodup2⟩

/-- C7: the authority's operations preserve the Player record
    invariants: every coordinate stays inside the 6 by 6 grid, no
    achieved list ever exceeds the win threshold of five, and a held
    target item is never an element of any achieved list. -/
theorem claim_C7 (s : ServerState) (hinv : stateInv s) :
    (∀ rng rolls moves, stateInv (tick s rng rolls moves).s) ∧
    (∀ rng cid, s.players.length < s.maxPlayers →
      stateInv (onClientConnected s rng cid).1) ∧
    (∀ p ∈ s.players, inGrid p.coords ∧ p.achieved_items.length ≤ itemsToWin) ∧
    (∀ p ∈ s.players, ∀ q ∈ s.players, ∀ it, p.target_item = some it →
      it ∉ q.achieved_items) := by
  obtain ⟨hmax, hlen, hplayers, hnodup⟩ := hinv
  refine ⟨fun rng rolls moves => tick_inv s rng rolls moves ⟨hmax, hlen, hplayers, hnodup⟩,
    fun rng cid hroom => onClientConnected_inv s rng cid ⟨hmax, hlen, hplayers, hnodup⟩ hroom,
    fun p hp => ⟨(hplayers p hp).1, (hplayers p hp).2.1⟩, ?_⟩
  intro p hp q hq it htgt hmem
  unfold allItems at hnodup
  rw [List.nodup_append] at hnodup
  have hflat : (s.players.flatMap itemsOf).Nodup := hnodup.2.1
  by_cases hpq : p = q
  · subst hpq
    have hself : (itemsOf p).Nodup := flatMap_nodup_of_mem itemsOf s.players hflat p hp
    unfold itemsOf at hself
    rw [List.nodup_append] at hself
    exact hself.2.2 (by rw [htgt]; exact List.mem_singleton.mpr rfl) hmem
  · have hdisj := flatMap_disjoint_of_ne itemsOf s.players hflat p hp q hq hpq
    have hp_in : it ∈ itemsOf p := by
      unfold itemsOf
      rw [htgt]
      exact List.mem_append_left _ (List.mem_singleton.mpr rfl)
    have hq_in : it ∈ itemsOf q := by
      unfold itemsOf
      exact List.mem_append_right _ hmem
    exact hdisj hp_in hq_in

/-- A concrete two-player mid-game state satisfying the invariant. -/
def sC7 : ServerState :=
  ⟨mazeC1, 2,
   [⟨5, ⟨0, 0⟩, ⟨0, 0⟩, 0, some Item.bracelet, []⟩,
    ⟨6, ⟨5, 0⟩, ⟨5, 0⟩, 1, some Item.yinYang, []⟩],
   2, 0, TurnPhase.moving 0, GameState.inGame, [Item.moon, Item.flower]⟩

/-- Witness for C7: the invariant holds after a concrete tick and a
    concrete connection. -/
theorem claim_C7_witness :
    stateInv (tick sC7 rng0 [5] [(5, MoveRequest.right)]).s ∧
    (∀ p ∈ sC7.players, ∀ q ∈ sC7.players, ∀ it, p.target_item = some it →
      it ∉ q.achieved_items) :=
  have h := claim_C7 sC7 (by decide)
  ⟨h.1 rng0 [5] [(5, MoveRequest.right)], h.2.2.2⟩

end Labyrinth
